import Mathlib

/-!
Verification of the `jo` repository (`git_analyzer` package) against its
natural-language specification.

The development shallowly embeds the two subsystems the claims are about:

* `src/git_analyzer/analyzer.py` — the `ASTVisitor` class (the Source Tree
  Builder): a depth-first traversal of a parsed Python syntax tree that
  maintains an explicit scope stack and builds a forest of `ASTNode`
  records.  Python's mutable, aliased `ASTNode` objects are modelled with
  an explicit arena (`List ASTNode`) addressed by position; the scope stack
  and the flat emission list hold arena indices.  The Python list used as
  the scope stack grows at its end; here the *head* of `scope_stack`
  models the Python list's last element (the innermost open scope).

* `src/git_analyzer/embeddings.py` — the `EmbeddingManager` class (Content
  Extractor + Semantic Index): digest extraction, batched embedding
  generation with an external provider, cache persistence, and cosine
  similarity search.  Python floats are modelled as exact numbers
  (vector components as `ℚ`, similarity scores as `ℝ`); the IEEE NaN value
  that numpy produces for `0.0 / 0.0` is modelled explicitly by
  `NpFloat.nan`.  The external OpenAI client is modelled as a function
  argument returning `Except` (failure = raised exception).
-/

namespace GitAnalyzer

/-! ## The Python `ast` expression subset handled by `ASTVisitor._get_name`

`analyzer.py` dispatches on `ast.Name`, `ast.Attribute`, `ast.Str`,
`ast.Num` and `ast.Call`; every other expression falls through to
`str(node)`.  On the Python versions the code supports (it uses `ast.Str`
and `ast.Num`, which were removed in Python 3.12, and declares
`python_requires>=3.8`), `str(node)` for an AST node is the default object
repr `<ast.Kind object at 0x...>`, which embeds the node object's memory
address.  `Expr.other` therefore carries the runtime node's type name and
its address (`id(node)`); its `children` field models the sub-expressions
that `ast.NodeVisitor.generic_visit` still walks through. -/

inductive Expr where
  | name (id : String)
  | attr (value : Expr) (attrName : String)
  | strLit (s : String)
  | numLit (n : Int)
  | call (func : Expr) (args : List Expr)
  | other (kind : String) (addr : Nat) (children : List Expr)

/-- `ASTVisitor._get_name` (analyzer.py lines 185-197). -/
def get_name : Expr → String
  | .name id => id
  | .attr v a => get_name v ++ "." ++ a
  | .strLit s => s
  | .numLit n => toString n
  | .call f _ => get_name f
  | .other kind addr _ => "<ast." ++ kind ++ " object at 0x" ++ toString addr ++ ">"

/-! ## Function argument lists (`ast.arguments`) -/

/-- One formal argument (`ast.arg`): its name and optional annotation. -/
structure PyArg where
  argName : String
  ann : Option Expr

/-- The `ast.arguments` record, with the fields `_get_arguments` reads. -/
structure PyArguments where
  posonlyargs : List PyArg
  args : List PyArg
  vararg : Option String
  kwonlyargs : List PyArg
  kwarg : Option String

/-- Rendering of one argument inside `_get_arguments`: `name` or
`name: type` when an annotation exists. -/
def render_arg (a : PyArg) : String :=
  match a.ann with
  | some t => a.argName ++ ": " ++ get_name t
  | none => a.argName

/-- `ASTVisitor._get_arguments` (analyzer.py lines 157-183): positional-only
and positional args, then `*vararg`, then keyword-only args, then
`**kwarg`. -/
def get_arguments (a : PyArguments) : List String :=
  ((a.posonlyargs ++ a.args).map render_arg)
    ++ (match a.vararg with | some v => ["*" ++ v] | none => [])
    ++ (a.kwonlyargs.map render_arg)
    ++ (match a.kwarg with | some k => ["**" ++ k] | none => [])

/-! ## The statement subset the visitor distinguishes

`ASTVisitor` overrides `visit_ClassDef`, `visit_FunctionDef`,
`visit_AsyncFunctionDef`, `visit_Call` and `visit_Assign`; every other
statement kind is traversed transparently by `generic_visit`.  `ifStmt`
stands for such a transparent compound statement (children visited in
field order `test`, `body`, `orelse`; no node is created).  `end_lineno`
and `end_col_offset` are optional in the Python AST, matching the
`node.end_lineno or node.lineno` / `node.end_col_offset or 0` defaults. -/

inductive Stmt where
  | classDef (nm : String) (lineno : Nat) (end_lineno : Option Nat)
      (col_offset : Nat) (end_col_offset : Option Nat)
      (bases : List Expr) (decorator_list : List Expr) (body : List Stmt)
  | functionDef (isAsync : Bool) (nm : String) (lineno : Nat) (end_lineno : Option Nat)
      (col_offset : Nat) (end_col_offset : Option Nat)
      (argsSpec : PyArguments) (returnAnn : Option Expr)
      (decorator_list : List Expr) (body : List Stmt)
  | assign (targets : List Expr) (value : Expr)
  | exprStmt (e : Expr)
  | ifStmt (test : Expr) (body : List Stmt) (orelse : List Stmt)

/-- `ast.get_docstring`: the docstring is the leading string-literal
expression statement of a scope body (the stdlib's whitespace cleanup is
abstracted away; presence and identity are what the analyzer uses). -/
def get_docstring : List Stmt → Option String
  | .exprStmt (.strLit s) :: _ => some s
  | _ => none

/-! ## The `ASTNode` dataclass (analyzer.py lines 11-29)

`parent` and `children` hold arena indices instead of object references. -/

structure ASTNode where
  name : String
  type : String
  line : Nat
  end_line : Nat
  col_offset : Nat
  end_col_offset : Nat
  parent : Option Nat := none
  children : List Nat := []
  docstring : Option String := none
  decorators : List String := []
  returns : Option String := none
  arguments : List String := []
  bases : List String := []
  assignments : List String := []
  calls : List String := []
  file_path : Option String := none
deriving DecidableEq, Repr

/-- Visitor state: the arena of all created nodes, the scope stack
(`scope_stack`, head = innermost open scope = Python `scope_stack[-1]`),
and the flat emission list `nodes`, all as arena indices. -/
structure VState where
  file_path : String
  arena : List ASTNode
  scope_stack : List Nat
  nodes : List Nat
deriving DecidableEq, Repr

/-- Point update of an arena position (out-of-range is the identity). -/
def modifyAt (f : α → α) : Nat → List α → List α
  | _, [] => []
  | 0, a :: l => f a :: l
  | n + 1, a :: l => a :: modifyAt f n l

/-- In-place mutation `current.calls.append(name)` performed by
`visit_Call` on the top-of-stack node. -/
def append_call (nm : String) (n : ASTNode) : ASTNode :=
  { n with calls := n.calls ++ [nm] }

/-- In-place mutation of the top-of-stack node's `assignments` performed
by `visit_Assign` (one appended name per assignment target). -/
def append_assigns (nms : List String) (n : ASTNode) : ASTNode :=
  { n with assignments := n.assignments ++ nms }

/-- The recording half of `visit_Call` (analyzer.py lines 99-104): when
the scope stack is non-empty, append the resolved callee name to the
`calls` of the current top of stack; otherwise do nothing. -/
def visit_Call_record (s : VState) (nm : String) : VState :=
  match s.scope_stack with
  | [] => s
  | i :: _ => { s with arena := modifyAt (append_call nm) i s.arena }

/-- The recording half of `visit_Assign` (analyzer.py lines 106-112). -/
def visit_Assign_record (s : VState) (nms : List String) : VState :=
  match s.scope_stack with
  | [] => s
  | i :: _ => { s with arena := modifyAt (append_assigns nms) i s.arena }

/-- `ASTVisitor._add_node` (analyzer.py lines 149-155): set the parent to
the current top of stack (if any), append the node to the parent's
`children`, and append it to the flat `nodes` list.  The new node lives
at index `s.arena.length`. -/
def add_node (s : VState) (node : ASTNode) : VState :=
  let idx := s.arena.length
  match s.scope_stack with
  | [] =>
      { s with arena := s.arena ++ [node], nodes := s.nodes ++ [idx] }
  | p :: _ =>
      { s with
        arena := modifyAt (fun pn => { pn with children := pn.children ++ [idx] }) p s.arena
                   ++ [{ node with parent := some p }],
        nodes := s.nodes ++ [idx] }

/-- The `ASTNode` built at the top of `visit_ClassDef`
(analyzer.py lines 60-76). -/
def class_node (s : VState) (nm : String) (lineno : Nat) (end_lineno : Option Nat)
    (col_offset : Nat) (end_col_offset : Option Nat)
    (bases decorator_list : List Expr) (body : List Stmt) : ASTNode :=
  { name := nm
    type := "class"
    line := lineno
    end_line := end_lineno.getD lineno
    col_offset := col_offset
    end_col_offset := end_col_offset.getD 0
    docstring := get_docstring body
    bases := bases.map get_name
    decorators := decorator_list.map get_name
    file_path := some s.file_path }

/-- The `ASTNode` built at the top of `ASTVisitor._process_function`
(analyzer.py lines 114-134). -/
def function_node (s : VState) (isAsync : Bool) (nm : String) (lineno : Nat)
    (end_lineno : Option Nat) (col_offset : Nat) (end_col_offset : Option Nat)
    (argsSpec : PyArguments) (returnAnn : Option Expr)
    (decorator_list : List Expr) (body : List Stmt) : ASTNode :=
  { name := nm
    type := if isAsync then "async_function" else "function"
    line := lineno
    end_line := end_lineno.getD lineno
    col_offset := col_offset
    end_col_offset := end_col_offset.getD 0
    docstring := get_docstring body
    arguments := get_arguments argsSpec
    returns := returnAnn.map get_name
    decorators := decorator_list.map get_name
    file_path := some s.file_path }

mutual

/-- Expression traversal: `ast.NodeVisitor` dispatch restricted to
expressions.  `visit_Call` appends the callee name (when a scope is open)
and then `generic_visit` continues into `func` and `args`; `Attribute`
and unhandled nodes are traversed transparently; `Name`/`Str`/`Num` have
no visitable children. -/
def visitExpr (s : VState) : Expr → VState
  | .name _ => s
  | .strLit _ => s
  | .numLit _ => s
  | .attr v _ => visitExpr s v
  | .call f args => visitExprList (visitExpr (visit_Call_record s (get_name f)) f) args
  | .other _ _ children => visitExprList s children

/-- Visit a list of expressions left to right. -/
def visitExprList (s : VState) : List Expr → VState
  | [] => s
  | e :: rest => visitExprList (visitExpr s e) rest

end

/-- `self.scope_stack.append(ast_node)`: open a new scope. -/
def push_scope (s : VState) (idx : Nat) : VState :=
  { s with scope_stack := idx :: s.scope_stack }

/-- `self.scope_stack.pop()`: close the innermost scope. -/
def pop_scope (s : VState) : VState :=
  { s with scope_stack := s.scope_stack.tail }

mutual

/-- Statement traversal.  `classDef` and `functionDef` build a node,
attach it (`_add_node`), push it, visit the body, and pop; `assign`
records target names on the top of stack and then `generic_visit` walks
targets and value; `exprStmt` visits its expression; `ifStmt` is
traversed transparently in field order. -/
def visitStmt (s : VState) : Stmt → VState
  | .classDef nm lineno end_lineno col_offset end_col_offset bases decorator_list body =>
      pop_scope (visitStmtList
        (push_scope (add_node s (class_node s nm lineno end_lineno col_offset end_col_offset
          bases decorator_list body)) s.arena.length) body)
  | .functionDef isAsync nm lineno end_lineno col_offset end_col_offset argsSpec
      returnAnn decorator_list body =>
      pop_scope (visitStmtList
        (push_scope (add_node s (function_node s isAsync nm lineno end_lineno col_offset
          end_col_offset argsSpec returnAnn decorator_list body)) s.arena.length) body)
  | .assign targets value =>
      visitExpr (visitExprList (visit_Assign_record s (targets.map get_name)) targets) value
  | .exprStmt e => visitExpr s e
  | .ifStmt test body orelse =>
      visitStmtList (visitStmtList (visitExpr s test) body) orelse

/-- Visit a list of statements left to right (a scope body, or the
top-level statements of a module). -/
def visitStmtList (s : VState) : List Stmt → VState
  | [] => s
  | st :: rest => visitStmtList (visitStmt s st) rest

end

/-- The initial visitor state for one file
(`ASTVisitor.__init__`, analyzer.py lines 53-58). -/
def init_state (fp : String) : VState :=
  { file_path := fp, arena := [], scope_stack := [], nodes := [] }

/-- `visitor.visit(tree)` on a parsed module: `generic_visit` of
`ast.Module` visits each top-level statement in order. -/
def visitFile (fp : String) (body : List Stmt) : VState :=
  visitStmtList (init_state fp) body

/-! ## Basic lemmas about arena updates -/

theorem length_modifyAt (f : α → α) (i : Nat) (l : List α) :
    (modifyAt f i l).length = l.length := by
  induction l generalizing i with
  | nil => cases i <;> rfl
  | cons a l ih =>
      cases i with
      | zero => rfl
      | succ n => simpa [modifyAt] using ih n

theorem getElem?_modifyAt_ne (f : α → α) (i j : Nat) (l : List α) (h : j ≠ i) :
    (modifyAt f i l)[j]? = l[j]? := by
  induction l generalizing i j with
  | nil => cases i <;> rfl
  | cons a l ih =>
      cases i with
      | zero =>
          cases j with
          | zero => exact absurd rfl h
          | succ m => simp [modifyAt]
      | succ n =>
          cases j with
          | zero => simp [modifyAt]
          | succ m => simpa [modifyAt] using ih n m (by omega)

theorem getElem?_modifyAt_self (f : α → α) (i : Nat) (l : List α) :
    (modifyAt f i l)[i]? = (l[i]?).map f := by
  induction l generalizing i with
  | nil => cases i <;> rfl
  | cons a l ih =>
      cases i with
      | zero => simp [modifyAt]
      | succ n => simpa [modifyAt] using ih n

theorem modifyAt_modifyAt (f g : α → α) (i : Nat) (l : List α) :
    modifyAt f i (modifyAt g i l) = modifyAt (fun a => f (g a)) i l := by
  induction l generalizing i with
  | nil => cases i <;> rfl
  | cons a l ih =>
      cases i with
      | zero => rfl
      | succ n => simpa [modifyAt] using ih n

theorem modifyAt_congr (f g : α → α) (i : Nat) (l : List α) (h : ∀ a, f a = g a) :
    modifyAt f i l = modifyAt g i l := by
  induction l generalizing i with
  | nil => cases i <;> rfl
  | cons a l ih =>
      cases i with
      | zero => simp [modifyAt, h]
      | succ n => simpa [modifyAt] using ih n

theorem modifyAt_id (f : α → α) (i : Nat) (l : List α) (h : ∀ a, f a = a) :
    modifyAt f i l = l := by
  induction l generalizing i with
  | nil => cases i <;> rfl
  | cons a l ih =>
      cases i with
      | zero => simp [modifyAt, h]
      | succ n => simpa [modifyAt] using ih n

/-! ## Characterization of expression traversal

`visitExpr` changes nothing but the `calls` list of the node at the top
of the scope stack (and changes nothing at all when the stack is empty);
`collectCalls` lists the callee names it appends, in traversal order. -/

mutual

/-- Callee names recorded while traversing an expression, in order: a
call records its own resolved callee first, then the names arising in
its `func` sub-expression, then those in its arguments. -/
def collectCalls : Expr → List String
  | .name _ => []
  | .strLit _ => []
  | .numLit _ => []
  | .attr v _ => collectCalls v
  | .call f args => get_name f :: (collectCalls f ++ collectCallsList args)
  | .other _ _ children => collectCallsList children

def collectCallsList : List Expr → List String
  | [] => []
  | e :: rest => collectCalls e ++ collectCallsList rest

end

/-- Append a batch of callee names to a node's `calls`. -/
def add_calls (nms : List String) (n : ASTNode) : ASTNode :=
  { n with calls := n.calls ++ nms }

/-- The arena obtained by appending `nms` to the `calls` of the node the
scope stack `stk` points at (no change when the stack is empty). -/
def recordCalls (stk : List Nat) (nms : List String) (arena : List ASTNode) : List ASTNode :=
  match stk with
  | [] => arena
  | i :: _ => modifyAt (add_calls nms) i arena

theorem recordCalls_nil (stk : List Nat) (arena : List ASTNode) :
    recordCalls stk [] arena = arena := by
  cases stk with
  | nil => rfl
  | cons i rest =>
      show modifyAt (add_calls []) i arena = arena
      exact modifyAt_id _ _ _ (fun a => by simp [add_calls])

theorem recordCalls_comp (stk : List Nat) (a b : List String) (arena : List ASTNode) :
    recordCalls stk b (recordCalls stk a arena) = recordCalls stk (a ++ b) arena := by
  cases stk with
  | nil => rfl
  | cons i rest =>
      show modifyAt (add_calls b) i (modifyAt (add_calls a) i arena)
        = modifyAt (add_calls (a ++ b)) i arena
      rw [modifyAt_modifyAt]
      exact modifyAt_congr _ _ _ _ (fun n => by simp [add_calls])

theorem visit_Call_record_stack (s : VState) (nm : String) :
    (visit_Call_record s nm).scope_stack = s.scope_stack := by
  unfold visit_Call_record; split <;> rfl

theorem visit_Call_record_nodes (s : VState) (nm : String) :
    (visit_Call_record s nm).nodes = s.nodes := by
  unfold visit_Call_record; split <;> rfl

theorem visit_Call_record_fp (s : VState) (nm : String) :
    (visit_Call_record s nm).file_path = s.file_path := by
  unfold visit_Call_record; split <;> rfl

theorem visit_Call_record_arena (s : VState) (nm : String) :
    (visit_Call_record s nm).arena = recordCalls s.scope_stack [nm] s.arena := by
  unfold visit_Call_record recordCalls
  cases s.scope_stack with
  | nil => rfl
  | cons i rest =>
      exact modifyAt_congr _ _ _ _ (fun n => by simp [add_calls, append_call])

mutual

theorem visitExpr_stack (s : VState) (e : Expr) :
    (visitExpr s e).scope_stack = s.scope_stack := by
  cases e with
  | name id => rfl
  | strLit s1 => rfl
  | numLit n => rfl
  | attr v a => exact visitExpr_stack s v
  | call f args =>
      rw [visitExpr, visitExprList_stack, visitExpr_stack, visit_Call_record_stack]
  | other k a children => rw [visitExpr]; exact visitExprList_stack s children

theorem visitExprList_stack (s : VState) (l : List Expr) :
    (visitExprList s l).scope_stack = s.scope_stack := by
  cases l with
  | nil => rfl
  | cons e rest => rw [visitExprList, visitExprList_stack, visitExpr_stack]

end

mutual

theorem visitExpr_nodes (s : VState) (e : Expr) :
    (visitExpr s e).nodes = s.nodes := by
  cases e with
  | name id => rfl
  | strLit s1 => rfl
  | numLit n => rfl
  | attr v a => exact visitExpr_nodes s v
  | call f args =>
      rw [visitExpr, visitExprList_nodes, visitExpr_nodes, visit_Call_record_nodes]
  | other k a children => rw [visitExpr]; exact visitExprList_nodes s children

theorem visitExprList_nodes (s : VState) (l : List Expr) :
    (visitExprList s l).nodes = s.nodes := by
  cases l with
  | nil => rfl
  | cons e rest => rw [visitExprList, visitExprList_nodes, visitExpr_nodes]

end

mutual

theorem visitExpr_fp (s : VState) (e : Expr) :
    (visitExpr s e).file_path = s.file_path := by
  cases e with
  | name id => rfl
  | strLit s1 => rfl
  | numLit n => rfl
  | attr v a => exact visitExpr_fp s v
  | call f args =>
      rw [visitExpr, visitExprList_fp, visitExpr_fp, visit_Call_record_fp]
  | other k a children => rw [visitExpr]; exact visitExprList_fp s children

theorem visitExprList_fp (s : VState) (l : List Expr) :
    (visitExprList s l).file_path = s.file_path := by
  cases l with
  | nil => rfl
  | cons e rest => rw [visitExprList, visitExprList_fp, visitExpr_fp]

end

mutual

theorem visitExpr_arena (s : VState) (e : Expr) :
    (visitExpr s e).arena = recordCalls s.scope_stack (collectCalls e) s.arena := by
  cases e with
  | name id => rw [visitExpr, collectCalls, recordCalls_nil]
  | strLit s1 => rw [visitExpr, collectCalls, recordCalls_nil]
  | numLit n => rw [visitExpr, collectCalls, recordCalls_nil]
  | attr v a => rw [visitExpr, collectCalls]; exact visitExpr_arena s v
  | call f args =>
      rw [visitExpr, visitExprList_arena, visitExpr_stack, visit_Call_record_stack,
        visitExpr_arena, visit_Call_record_stack, visit_Call_record_arena,
        recordCalls_comp, recordCalls_comp, collectCalls, List.singleton_append]
  | other k a children => rw [visitExpr, collectCalls]; exact visitExprList_arena s children

theorem visitExprList_arena (s : VState) (l : List Expr) :
    (visitExprList s l).arena = recordCalls s.scope_stack (collectCallsList l) s.arena := by
  cases l with
  | nil => rw [visitExprList, collectCallsList, recordCalls_nil]
  | cons e rest =>
      rw [visitExprList, visitExprList_arena, visitExpr_stack, visitExpr_arena,
        recordCalls_comp, collectCallsList]

end

/-! ## Punctual view of the recording operations -/

/-- The fields of a node that no call/assignment recording ever changes:
name, type, start line, and children. -/
def shape (n : ASTNode) : String × String × Nat × List Nat :=
  (n.name, n.type, n.line, n.children)

/-- The node identity fields that stay fixed for the lifetime of a node:
name, type and start line. -/
def meta3 (n : ASTNode) : String × String × Nat :=
  (n.name, n.type, n.line)

theorem length_recordCalls (stk : List Nat) (nms : List String) (arena : List ASTNode) :
    (recordCalls stk nms arena).length = arena.length := by
  cases stk with
  | nil => rfl
  | cons i rest => exact length_modifyAt _ _ _

theorem recordCalls_getElem_ne (stk : List Nat) (nms : List String) (arena : List ASTNode)
    (j : Nat) (h : stk.head? ≠ some j) :
    (recordCalls stk nms arena)[j]? = arena[j]? := by
  cases stk with
  | nil => rfl
  | cons i rest =>
      show (modifyAt (add_calls nms) i arena)[j]? = arena[j]?
      exact getElem?_modifyAt_ne _ _ _ _ (fun hji => h (by simp [hji]))

theorem recordCalls_getElem_shape (stk : List Nat) (nms : List String) (arena : List ASTNode)
    (j : Nat) :
    ((recordCalls stk nms arena)[j]?).map shape = (arena[j]?).map shape := by
  cases stk with
  | nil => rfl
  | cons i rest =>
      show ((modifyAt (add_calls nms) i arena)[j]?).map shape = _
      by_cases hji : j = i
      · subst hji
        rw [getElem?_modifyAt_self]
        cases arena[j]? <;> simp [add_calls, shape]
      · rw [getElem?_modifyAt_ne _ _ _ _ hji]

theorem visitExpr_length (s : VState) (e : Expr) :
    (visitExpr s e).arena.length = s.arena.length := by
  rw [visitExpr_arena, length_recordCalls]

theorem visitExprList_length (s : VState) (l : List Expr) :
    (visitExprList s l).arena.length = s.arena.length := by
  rw [visitExprList_arena, length_recordCalls]

theorem visitExpr_getElem_ne (s : VState) (e : Expr) (j : Nat)
    (h : s.scope_stack.head? ≠ some j) :
    (visitExpr s e).arena[j]? = s.arena[j]? := by
  rw [visitExpr_arena, recordCalls_getElem_ne _ _ _ _ h]

theorem visitExprList_getElem_ne (s : VState) (l : List Expr) (j : Nat)
    (h : s.scope_stack.head? ≠ some j) :
    (visitExprList s l).arena[j]? = s.arena[j]? := by
  rw [visitExprList_arena, recordCalls_getElem_ne _ _ _ _ h]

theorem visitExpr_getElem_shape (s : VState) (e : Expr) (j : Nat) :
    ((visitExpr s e).arena[j]?).map shape = (s.arena[j]?).map shape := by
  rw [visitExpr_arena, recordCalls_getElem_shape]

theorem visitExprList_getElem_shape (s : VState) (l : List Expr) (j : Nat) :
    ((visitExprList s l).arena[j]?).map shape = (s.arena[j]?).map shape := by
  rw [visitExprList_arena, recordCalls_getElem_shape]

theorem visit_Assign_record_stack (s : VState) (nms : List String) :
    (visit_Assign_record s nms).scope_stack = s.scope_stack := by
  unfold visit_Assign_record; split <;> rfl

theorem visit_Assign_record_nodes (s : VState) (nms : List String) :
    (visit_Assign_record s nms).nodes = s.nodes := by
  unfold visit_Assign_record; split <;> rfl

theorem visit_Assign_record_fp (s : VState) (nms : List String) :
    (visit_Assign_record s nms).file_path = s.file_path := by
  unfold visit_Assign_record; split <;> rfl

theorem visit_Assign_record_length (s : VState) (nms : List String) :
    (visit_Assign_record s nms).arena.length = s.arena.length := by
  unfold visit_Assign_record
  cases s.scope_stack with
  | nil => rfl
  | cons i rest => exact length_modifyAt _ _ _

theorem visit_Assign_record_getElem_ne (s : VState) (nms : List String) (j : Nat)
    (h : s.scope_stack.head? ≠ some j) :
    (visit_Assign_record s nms).arena[j]? = s.arena[j]? := by
  unfold visit_Assign_record
  cases hs : s.scope_stack with
  | nil => rfl
  | cons i rest =>
      rw [hs] at h
      show (modifyAt (append_assigns nms) i s.arena)[j]? = _
      exact getElem?_modifyAt_ne _ _ _ _ (fun hji => h (by simp [hji]))

theorem visit_Assign_record_getElem_shape (s : VState) (nms : List String) (j : Nat) :
    ((visit_Assign_record s nms).arena[j]?).map shape = (s.arena[j]?).map shape := by
  unfold visit_Assign_record
  cases s.scope_stack with
  | nil => rfl
  | cons i rest =>
      show ((modifyAt (append_assigns nms) i s.arena)[j]?).map shape = _
      by_cases hji : j = i
      · subst hji
        rw [getElem?_modifyAt_self]
        cases s.arena[j]? <;> simp [append_assigns, shape]
      · rw [getElem?_modifyAt_ne _ _ _ _ hji]

/-! ## Lemmas about `_add_node` -/

theorem add_node_stack (s : VState) (node : ASTNode) :
    (add_node s node).scope_stack = s.scope_stack := by
  unfold add_node; split <;> rfl

theorem add_node_fp (s : VState) (node : ASTNode) :
    (add_node s node).file_path = s.file_path := by
  unfold add_node; split <;> rfl

theorem add_node_length (s : VState) (node : ASTNode) :
    (add_node s node).arena.length = s.arena.length + 1 := by
  unfold add_node
  cases s.scope_stack with
  | nil => simp
  | cons p rest => simp [length_modifyAt]

theorem getElem?_append_singleton (l : List α) (x : α) (n : Nat) (h : n = l.length) :
    (l ++ [x])[n]? = some x := by
  subst h
  simp

theorem add_node_getElem_ne (s : VState) (node : ASTNode) (j : Nat)
    (hj : j < s.arena.length) (h : s.scope_stack.head? ≠ some j) :
    (add_node s node).arena[j]? = s.arena[j]? := by
  unfold add_node
  cases hs : s.scope_stack with
  | nil => exact List.getElem?_append_left hj
  | cons p rest =>
      rw [hs] at h
      show ((modifyAt _ p s.arena) ++ _)[j]? = _
      rw [List.getElem?_append_left (by rw [length_modifyAt]; exact hj)]
      exact getElem?_modifyAt_ne _ _ _ _ (fun hji => h (by simp [hji]))

theorem add_node_getElem_head (s : VState) (node : ASTNode) (j : Nat) (old : ASTNode)
    (hh : s.scope_stack.head? = some j) (hold : s.arena[j]? = some old) :
    (add_node s node).arena[j]?
      = some { old with children := old.children ++ [s.arena.length] } := by
  have hj : j < s.arena.length := by
    by_contra hge
    rw [List.getElem?_eq_none (by omega)] at hold
    exact Option.noConfusion hold
  unfold add_node
  cases hs : s.scope_stack with
  | nil => rw [hs] at hh; exact absurd hh (by simp)
  | cons p rest =>
      rw [hs] at hh
      have hpj : p = j := by simpa using hh
      subst hpj
      show ((modifyAt _ p s.arena) ++ _)[p]? = _
      rw [List.getElem?_append_left (by rw [length_modifyAt]; exact hj),
        getElem?_modifyAt_self, hold]
      rfl

theorem add_node_getElem_new (s : VState) (node : ASTNode) :
    ∃ n', (add_node s node).arena[s.arena.length]? = some n'
      ∧ n'.name = node.name ∧ n'.type = node.type ∧ n'.line = node.line
      ∧ n'.end_line = node.end_line ∧ n'.children = node.children
      ∧ n'.calls = node.calls ∧ n'.assignments = node.assignments
      ∧ n'.docstring = node.docstring := by
  unfold add_node
  cases s.scope_stack with
  | nil =>
      refine ⟨node, ?_, rfl, rfl, rfl, rfl, rfl, rfl, rfl, rfl⟩
      exact getElem?_append_singleton _ _ _ rfl
  | cons p rest =>
      refine ⟨{ node with parent := some p }, ?_, rfl, rfl, rfl, rfl, rfl, rfl, rfl, rfl⟩
      show ((modifyAt _ p s.arena) ++ _)[s.arena.length]? = _
      exact getElem?_append_singleton _ _ _ (length_modifyAt _ _ _).symm

theorem push_scope_arena (s : VState) (idx : Nat) : (push_scope s idx).arena = s.arena := rfl

theorem push_scope_stack (s : VState) (idx : Nat) :
    (push_scope s idx).scope_stack = idx :: s.scope_stack := rfl

theorem push_scope_length (s : VState) (idx : Nat) :
    (push_scope s idx).arena.length = s.arena.length := rfl

theorem push_scope_getElem (s : VState) (idx j : Nat) :
    (push_scope s idx).arena[j]? = s.arena[j]? := rfl

theorem pop_scope_arena (s : VState) : (pop_scope s).arena = s.arena := rfl

theorem pop_scope_stack (s : VState) :
    (pop_scope s).scope_stack = s.scope_stack.tail := rfl

theorem pop_scope_length (s : VState) : (pop_scope s).arena.length = s.arena.length := rfl

theorem pop_scope_getElem (s : VState) (j : Nat) :
    (pop_scope s).arena[j]? = s.arena[j]? := rfl

theorem add_node_getElem_past (s : VState) (node : ASTNode) (j : Nat)
    (hj : s.arena.length < j) :
    (add_node s node).arena[j]? = none := by
  apply List.getElem?_eq_none
  rw [add_node_length]; omega

/-- Unpack an equality of optional node shapes. -/
theorem of_shape_eq {o o' : Option ASTNode} (h : (o.map shape) = (o'.map shape)) :
    (o = none ∧ o' = none)
    ∨ ∃ n n', o = some n ∧ o' = some n' ∧ n.name = n'.name ∧ n.type = n'.type
        ∧ n.line = n'.line ∧ n.children = n'.children := by
  cases o with
  | none => cases o' with
    | none => exact Or.inl ⟨rfl, rfl⟩
    | some n' => simp at h
  | some n => cases o' with
    | none => simp at h
    | some n' =>
        simp only [Option.map_some', Option.some.injEq, shape, Prod.mk.injEq] at h
        exact Or.inr ⟨n, n', rfl, rfl, h.1, h.2.1, h.2.2.1, h.2.2.2⟩

theorem meta3_of_shape {o o' : Option ASTNode} (h : (o.map shape) = (o'.map shape)) :
    o.map meta3 = o'.map meta3 := by
  rcases of_shape_eq h with ⟨h1, h2⟩ | ⟨n, n', h1, h2, h3, h4, h5, h6⟩
  · rw [h1, h2]
  · rw [h1, h2]; simp [meta3, h3, h4, h5]

theorem add_node_getElem_meta (s : VState) (node : ASTNode) (j : Nat)
    (hj : j < s.arena.length) :
    ((add_node s node).arena[j]?).map meta3 = (s.arena[j]?).map meta3 := by
  by_cases hh : s.scope_stack.head? = some j
  · have hold : s.arena[j]? = some s.arena[j] := List.getElem?_eq_getElem hj
    rw [add_node_getElem_head s node j _ hh hold, hold]
    simp [meta3]
  · rw [add_node_getElem_ne s node j hj hh]

/-! ## Statement-level invariants of the traversal -/

mutual

/-- Balanced push/pop: visiting any statement restores the scope stack. -/
theorem visitStmt_stack (s : VState) (st : Stmt) :
    (visitStmt s st).scope_stack = s.scope_stack := by
  cases st with
  | classDef nm lineno el c ec bases decs body =>
      simp only [visitStmt, pop_scope_stack, visitStmtList_stack, push_scope_stack,
        add_node_stack, List.tail_cons]
  | functionDef isAsync nm lineno el c ec argsSpec ret decs body =>
      simp only [visitStmt, pop_scope_stack, visitStmtList_stack, push_scope_stack,
        add_node_stack, List.tail_cons]
  | assign targets value =>
      simp only [visitStmt, visitExpr_stack, visitExprList_stack, visit_Assign_record_stack]
  | exprStmt e => simp only [visitStmt, visitExpr_stack]
  | ifStmt test body orelse =>
      simp only [visitStmt, visitStmtList_stack, visitExpr_stack]

theorem visitStmtList_stack (s : VState) (l : List Stmt) :
    (visitStmtList s l).scope_stack = s.scope_stack := by
  cases l with
  | nil => rfl
  | cons st rest =>
      rw [visitStmtList, visitStmtList_stack, visitStmt_stack]

end

mutual

/-- The arena only ever grows. -/
theorem visitStmt_length_le (s : VState) (st : Stmt) :
    s.arena.length ≤ (visitStmt s st).arena.length := by
  cases st with
  | classDef nm lineno el c ec bases decs body =>
      simp only [visitStmt, pop_scope_length]
      have h := visitStmtList_length_le
        (push_scope (add_node s (class_node s nm lineno el c ec bases decs body))
          s.arena.length) body
      rw [push_scope_length, add_node_length] at h
      omega
  | functionDef isAsync nm lineno el c ec argsSpec ret decs body =>
      simp only [visitStmt, pop_scope_length]
      have h := visitStmtList_length_le
        (push_scope (add_node s (function_node s isAsync nm lineno el c ec argsSpec ret decs
          body)) s.arena.length) body
      rw [push_scope_length, add_node_length] at h
      omega
  | assign targets value =>
      simp only [visitStmt, visitExpr_length, visitExprList_length, visit_Assign_record_length,
        le_refl]
  | exprStmt e => simp only [visitStmt, visitExpr_length, le_refl]
  | ifStmt test body orelse =>
      simp only [visitStmt]
      have h1 := visitStmtList_length_le (visitExpr s test) body
      have h2 := visitStmtList_length_le (visitStmtList (visitExpr s test) body) orelse
      rw [visitExpr_length] at h1
      omega

theorem visitStmtList_length_le (s : VState) (l : List Stmt) :
    s.arena.length ≤ (visitStmtList s l).arena.length := by
  cases l with
  | nil => exact le_refl _
  | cons st rest =>
      rw [visitStmtList]
      exact le_trans (visitStmt_length_le s st) (visitStmtList_length_le _ rest)

end

mutual

/-- The name, type and start line of an already-created node are never
changed by the rest of the traversal. -/
theorem visitStmt_getElem_meta (s : VState) (st : Stmt) (j : Nat)
    (hj : j < s.arena.length) :
    ((visitStmt s st).arena[j]?).map meta3 = (s.arena[j]?).map meta3 := by
  cases st with
  | classDef nm lineno el c ec bases decs body =>
      simp only [visitStmt, pop_scope_getElem]
      rw [visitStmtList_getElem_meta _ body j
        (by rw [push_scope_length, add_node_length]; omega), push_scope_getElem]
      exact add_node_getElem_meta s _ j hj
  | functionDef isAsync nm lineno el c ec argsSpec ret decs body =>
      simp only [visitStmt, pop_scope_getElem]
      rw [visitStmtList_getElem_meta _ body j
        (by rw [push_scope_length, add_node_length]; omega), push_scope_getElem]
      exact add_node_getElem_meta s _ j hj
  | assign targets value =>
      simp only [visitStmt]
      rw [meta3_of_shape (visitExpr_getElem_shape _ value j),
        meta3_of_shape (visitExprList_getElem_shape _ targets j),
        meta3_of_shape (visit_Assign_record_getElem_shape s _ j)]
  | exprStmt e =>
      simp only [visitStmt]
      exact meta3_of_shape (visitExpr_getElem_shape s e j)
  | ifStmt test body orelse =>
      simp only [visitStmt]
      rw [visitStmtList_getElem_meta _ orelse j
          (le_trans (by rw [visitExpr_length]; exact hj) (visitStmtList_length_le _ body)),
        visitStmtList_getElem_meta _ body j (by rw [visitExpr_length]; exact hj),
        meta3_of_shape (visitExpr_getElem_shape s test j)]

theorem visitStmtList_getElem_meta (s : VState) (l : List Stmt) (j : Nat)
    (hj : j < s.arena.length) :
    ((visitStmtList s l).arena[j]?).map meta3 = (s.arena[j]?).map meta3 := by
  cases l with
  | nil => rfl
  | cons st rest =>
      rw [visitStmtList,
        visitStmtList_getElem_meta _ rest j (lt_of_lt_of_le hj (visitStmt_length_le s st)),
        visitStmt_getElem_meta s st j hj]

end

mutual

/-- A node that is not the current top of stack is completely unchanged
by visiting a statement (ancestors and already-closed scopes never
receive calls, assignments or children). -/
theorem visitStmt_getElem_ne (s : VState) (st : Stmt) (j : Nat)
    (hj : j < s.arena.length) (h : s.scope_stack.head? ≠ some j) :
    (visitStmt s st).arena[j]? = s.arena[j]? := by
  cases st with
  | classDef nm lineno el c ec bases decs body =>
      simp only [visitStmt, pop_scope_getElem]
      rw [visitStmtList_getElem_ne _ body j
          (by rw [push_scope_length, add_node_length]; omega)
          (by rw [push_scope_stack, List.head?_cons]; intro hc; injection hc with hc2; omega),
        push_scope_getElem]
      exact add_node_getElem_ne s _ j hj h
  | functionDef isAsync nm lineno el c ec argsSpec ret decs body =>
      simp only [visitStmt, pop_scope_getElem]
      rw [visitStmtList_getElem_ne _ body j
          (by rw [push_scope_length, add_node_length]; omega)
          (by rw [push_scope_stack, List.head?_cons]; intro hc; injection hc with hc2; omega),
        push_scope_getElem]
      exact add_node_getElem_ne s _ j hj h
  | assign targets value =>
      simp only [visitStmt]
      rw [visitExpr_getElem_ne _ value j
          (by rw [visitExprList_stack, visit_Assign_record_stack]; exact h),
        visitExprList_getElem_ne _ targets j (by rw [visit_Assign_record_stack]; exact h),
        visit_Assign_record_getElem_ne s _ j h]
  | exprStmt e =>
      simp only [visitStmt]
      exact visitExpr_getElem_ne s e j h
  | ifStmt test body orelse =>
      simp only [visitStmt]
      rw [visitStmtList_getElem_ne _ orelse j
          (le_trans (by rw [visitExpr_length]; exact hj) (visitStmtList_length_le _ body))
          (by rw [visitStmtList_stack, visitExpr_stack]; exact h),
        visitStmtList_getElem_ne _ body j (by rw [visitExpr_length]; exact hj)
          (by rw [visitExpr_stack]; exact h),
        visitExpr_getElem_ne s test j h]

theorem visitStmtList_getElem_ne (s : VState) (l : List Stmt) (j : Nat)
    (hj : j < s.arena.length) (h : s.scope_stack.head? ≠ some j) :
    (visitStmtList s l).arena[j]? = s.arena[j]? := by
  cases l with
  | nil => rfl
  | cons st rest =>
      rw [visitStmtList,
        visitStmtList_getElem_ne _ rest j (lt_of_lt_of_le hj (visitStmt_length_le s st))
          (by rw [visitStmt_stack]; exact h),
        visitStmt_getElem_ne s st j hj h]

end

/-! ## Structural invariants: bounded children, node kinds -/

/-- Every index on the scope stack points into the arena. -/
@[reducible] def StackBounded (s : VState) : Prop :=
  ∀ i ∈ s.scope_stack, i < s.arena.length

/-- Every child index stored in a node points into the arena. -/
@[reducible] def ChildrenBounded (s : VState) : Prop :=
  ∀ (j : Nat) (n : ASTNode), s.arena[j]? = some n → ∀ c ∈ n.children, c < s.arena.length

/-- Every node in the arena is a class, function or async function (the
builder creates no other kinds — in particular no `module` nodes). -/
@[reducible] def TypeInv (s : VState) : Prop :=
  ∀ (j : Nat) (n : ASTNode), s.arena[j]? = some n →
    n.type = "class" ∨ n.type = "function" ∨ n.type = "async_function"

theorem shape_transfer {o o' : Option ASTNode} (h : (o.map shape) = (o'.map shape))
    (n : ASTNode) (hn : o = some n) :
    ∃ m, o' = some m ∧ m.name = n.name ∧ m.type = n.type ∧ m.line = n.line
      ∧ m.children = n.children := by
  rcases of_shape_eq h with ⟨h1, _⟩ | ⟨a, b, h1, h2, h3, h4, h5, h6⟩
  · rw [hn] at h1; exact Option.noConfusion h1
  · rw [hn] at h1
    injection h1 with h1
    subst h1
    exact ⟨b, h2, h3.symm, h4.symm, h5.symm, h6.symm⟩

theorem visitExpr_children_bounded (s : VState) (e : Expr) (hb : ChildrenBounded s) :
    ChildrenBounded (visitExpr s e) := by
  intro j n hn c hc
  obtain ⟨m, hm, _, _, _, hch⟩ := shape_transfer (visitExpr_getElem_shape s e j) n hn
  rw [visitExpr_length]
  exact hb j m hm c (hch ▸ hc)

theorem visitExprList_children_bounded (s : VState) (l : List Expr) (hb : ChildrenBounded s) :
    ChildrenBounded (visitExprList s l) := by
  intro j n hn c hc
  obtain ⟨m, hm, _, _, _, hch⟩ := shape_transfer (visitExprList_getElem_shape s l j) n hn
  rw [visitExprList_length]
  exact hb j m hm c (hch ▸ hc)

theorem visit_Assign_record_children_bounded (s : VState) (nms : List String)
    (hb : ChildrenBounded s) : ChildrenBounded (visit_Assign_record s nms) := by
  intro j n hn c hc
  obtain ⟨m, hm, _, _, _, hch⟩ := shape_transfer (visit_Assign_record_getElem_shape s nms j) n hn
  rw [visit_Assign_record_length]
  exact hb j m hm c (hch ▸ hc)

theorem add_node_children_bounded (s : VState) (node : ASTNode) (hb : ChildrenBounded s)
    (hn : node.children = []) : ChildrenBounded (add_node s node) := by
  intro j m hm c hc
  rw [add_node_length]
  rcases lt_trichotomy j s.arena.length with hj | hj | hj
  · by_cases hh : s.scope_stack.head? = some j
    · have hold : s.arena[j]? = some s.arena[j] := List.getElem?_eq_getElem hj
      rw [add_node_getElem_head s node j _ hh hold] at hm
      injection hm with hm
      subst hm
      simp only [List.mem_append, List.mem_singleton] at hc
      rcases hc with hc | hc
      · exact lt_trans (hb j _ hold c hc) (by omega)
      · omega
    · rw [add_node_getElem_ne s node j hj hh] at hm
      exact lt_trans (hb j m hm c hc) (by omega)
  · obtain ⟨n', hn', _, _, _, _, hch, _⟩ := add_node_getElem_new s node
    rw [hj] at hm
    rw [hm] at hn'
    injection hn' with hn'
    rw [hn', hch, hn] at hc
    exact absurd hc (List.not_mem_nil c)
  · rw [add_node_getElem_past s node j hj] at hm
    exact Option.noConfusion hm

theorem visitExpr_type_inv (s : VState) (e : Expr) (ht : TypeInv s) :
    TypeInv (visitExpr s e) := by
  intro j n hn
  obtain ⟨m, hm, _, hty, _, _⟩ := shape_transfer (visitExpr_getElem_shape s e j) n hn
  rw [← hty]
  exact ht j m hm

theorem visitExprList_type_inv (s : VState) (l : List Expr) (ht : TypeInv s) :
    TypeInv (visitExprList s l) := by
  intro j n hn
  obtain ⟨m, hm, _, hty, _, _⟩ := shape_transfer (visitExprList_getElem_shape s l j) n hn
  rw [← hty]
  exact ht j m hm

theorem visit_Assign_record_type_inv (s : VState) (nms : List String) (ht : TypeInv s) :
    TypeInv (visit_Assign_record s nms) := by
  intro j n hn
  obtain ⟨m, hm, _, hty, _, _⟩ := shape_transfer (visit_Assign_record_getElem_shape s nms j) n hn
  rw [← hty]
  exact ht j m hm

theorem add_node_type_inv (s : VState) (node : ASTNode) (ht : TypeInv s)
    (hn : node.type = "class" ∨ node.type = "function" ∨ node.type = "async_function") :
    TypeInv (add_node s node) := by
  intro j m hm
  rcases lt_trichotomy j s.arena.length with hj | hj | hj
  · by_cases hh : s.scope_stack.head? = some j
    · have hold : s.arena[j]? = some s.arena[j] := List.getElem?_eq_getElem hj
      rw [add_node_getElem_head s node j _ hh hold] at hm
      injection hm with hm
      subst hm
      exact ht j s.arena[j] hold
    · rw [add_node_getElem_ne s node j hj hh] at hm
      exact ht j m hm
  · obtain ⟨n', hn', _, hty, _, _, _, _⟩ := add_node_getElem_new s node
    rw [hj] at hm
    rw [hm] at hn'
    injection hn' with hn'
    rw [hn', hty]
    exact hn
  · rw [add_node_getElem_past s node j hj] at hm
    exact Option.noConfusion hm

mutual

theorem visitStmt_children_bounded (s : VState) (st : Stmt) (hb : ChildrenBounded s) :
    ChildrenBounded (visitStmt s st) := by
  cases st with
  | classDef nm lineno el c ec bases decs body =>
      simp only [visitStmt]
      have h1 : ChildrenBounded
          (add_node s (class_node s nm lineno el c ec bases decs body)) :=
        add_node_children_bounded s _ hb rfl
      exact visitStmtList_children_bounded _ body h1
  | functionDef isAsync nm lineno el c ec argsSpec ret decs body =>
      simp only [visitStmt]
      have h1 : ChildrenBounded
          (add_node s (function_node s isAsync nm lineno el c ec argsSpec ret decs body)) :=
        add_node_children_bounded s _ hb rfl
      exact visitStmtList_children_bounded _ body h1
  | assign targets value =>
      simp only [visitStmt]
      exact visitExpr_children_bounded _ value
        (visitExprList_children_bounded _ targets
          (visit_Assign_record_children_bounded s _ hb))
  | exprStmt e =>
      simp only [visitStmt]
      exact visitExpr_children_bounded s e hb
  | ifStmt test body orelse =>
      simp only [visitStmt]
      exact visitStmtList_children_bounded _ orelse
        (visitStmtList_children_bounded _ body (visitExpr_children_bounded s test hb))

theorem visitStmtList_children_bounded (s : VState) (l : List Stmt) (hb : ChildrenBounded s) :
    ChildrenBounded (visitStmtList s l) := by
  cases l with
  | nil => exact hb
  | cons st rest =>
      rw [visitStmtList]
      exact visitStmtList_children_bounded _ rest (visitStmt_children_bounded s st hb)

end

mutual

theorem visitStmt_type_inv (s : VState) (st : Stmt) (ht : TypeInv s) :
    TypeInv (visitStmt s st) := by
  cases st with
  | classDef nm lineno el c ec bases decs body =>
      simp only [visitStmt]
      have h1 : TypeInv (add_node s (class_node s nm lineno el c ec bases decs body)) :=
        add_node_type_inv s _ ht (Or.inl rfl)
      exact visitStmtList_type_inv _ body h1
  | functionDef isAsync nm lineno el c ec argsSpec ret decs body =>
      simp only [visitStmt]
      have h1 : TypeInv
          (add_node s (function_node s isAsync nm lineno el c ec argsSpec ret decs body)) :=
        add_node_type_inv s _ ht (by
          cases isAsync with
          | true => exact Or.inr (Or.inr rfl)
          | false => exact Or.inr (Or.inl rfl))
      exact visitStmtList_type_inv _ body h1
  | assign targets value =>
      simp only [visitStmt]
      exact visitExpr_type_inv _ value
        (visitExprList_type_inv _ targets (visit_Assign_record_type_inv s _ ht))
  | exprStmt e =>
      simp only [visitStmt]
      exact visitExpr_type_inv s e ht
  | ifStmt test body orelse =>
      simp only [visitStmt]
      exact visitStmtList_type_inv _ orelse
        (visitStmtList_type_inv _ body (visitExpr_type_inv s test ht))

theorem visitStmtList_type_inv (s : VState) (l : List Stmt) (ht : TypeInv s) :
    TypeInv (visitStmtList s l) := by
  cases l with
  | nil => exact ht
  | cons st rest =>
      rw [visitStmtList]
      exact visitStmtList_type_inv _ rest (visitStmt_type_inv s st ht)

end

/-! ## Children ordering: declarations attach in lexical order

`declLines st` lists the start lines of the declarations that a
statement attaches to the *current* scope (an `if` contributes the
declarations of both branches, a nested class/function contributes only
itself — its own body attaches one level deeper).  `lexOK` is the
well-formedness condition satisfied by every tree produced by a real
parser: inside any scope body, attachment-level declaration lines are
strictly increasing, recursively. -/

/-- Start line of the node at arena index `k` (0 when out of range). -/
def lineAt (s : VState) (k : Nat) : Nat :=
  match s.arena[k]? with
  | some n => n.line
  | none => 0

/-- The `start_line`s of the children of the node at index `k`, in
children order. -/
def childLinesAt (s : VState) (k : Nat) : List Nat :=
  match s.arena[k]? with
  | some n => n.children.map (lineAt s)
  | none => []

/-- Strictly increasing list of naturals. -/
def sortedLt : List Nat → Bool
  | [] => true
  | [_] => true
  | a :: b :: rest => decide (a < b) && sortedLt (b :: rest)

mutual

/-- Lines of the declarations a statement attaches to the current scope. -/
def declLines : Stmt → List Nat
  | .classDef _ lineno _ _ _ _ _ _ => [lineno]
  | .functionDef _ _ lineno _ _ _ _ _ _ _ => [lineno]
  | .assign _ _ => []
  | .exprStmt _ => []
  | .ifStmt _ body orelse => declLinesList body ++ declLinesList orelse

def declLinesList : List Stmt → List Nat
  | [] => []
  | st :: rest => declLines st ++ declLinesList rest

end

mutual

/-- Lexical well-formedness of a statement: in every scope body the
attachment-level declaration lines are strictly increasing. -/
def lexOK : Stmt → Bool
  | .classDef _ _ _ _ _ _ _ body => sortedLt (declLinesList body) && lexOKList body
  | .functionDef _ _ _ _ _ _ _ _ _ body => sortedLt (declLinesList body) && lexOKList body
  | .assign _ _ => true
  | .exprStmt _ => true
  | .ifStmt _ body orelse => lexOKList body && lexOKList orelse

def lexOKList : List Stmt → Bool
  | [] => true
  | st :: rest => lexOK st && lexOKList rest

end

theorem lt_length_of_getElem?_some {l : List α} {j : Nat} {a : α} (h : l[j]? = some a) :
    j < l.length := by
  by_contra hge
  rw [List.getElem?_eq_none (by omega)] at h
  exact Option.noConfusion h

theorem lineAt_pop (s : VState) (k : Nat) : lineAt (pop_scope s) k = lineAt s k := rfl

theorem lineAt_congr {s' s : VState} {k : Nat}
    (h : ((s'.arena[k]?).map meta3) = ((s.arena[k]?).map meta3)) :
    lineAt s' k = lineAt s k := by
  unfold lineAt
  cases h1 : s'.arena[k]? with
  | none => cases h2 : s.arena[k]? with
    | none => rfl
    | some n => rw [h1, h2] at h; simp at h
  | some n => cases h2 : s.arena[k]? with
    | none => rw [h1, h2] at h; simp at h
    | some m =>
        rw [h1, h2] at h
        simp only [Option.map_some', Option.some.injEq, meta3, Prod.mk.injEq] at h
        exact h.2.2

mutual

/-- Head delta: visiting a statement appends to the children of the
current top-of-stack node exactly the indices of the declarations the
statement attaches there, whose lines (in the final arena) are
`declLines st` in order; the node's name, type and line are unchanged. -/
theorem visitStmt_head_delta (s : VState) (st : Stmt) (j : Nat) (old : ASTNode)
    (hh : s.scope_stack.head? = some j) (hold : s.arena[j]? = some old) :
    ∃ (new : ASTNode) (kids : List Nat),
      (visitStmt s st).arena[j]? = some new
      ∧ new.name = old.name ∧ new.type = old.type ∧ new.line = old.line
      ∧ new.children = old.children ++ kids
      ∧ (∀ k ∈ kids, s.arena.length ≤ k ∧ k < (visitStmt s st).arena.length)
      ∧ kids.map (lineAt (visitStmt s st)) = declLines st := by
  have hjL : j < s.arena.length := lt_length_of_getElem?_some hold
  cases st with
  | classDef nm lineno el c ec bases decs body =>
      simp only [visitStmt, pop_scope_getElem, pop_scope_length]
      have h1 := add_node_getElem_head s
        (class_node s nm lineno el c ec bases decs body) j old hh hold
      obtain ⟨n', hn', hname', htype', hline', hend', hch', _, _, _⟩ :=
        add_node_getElem_new s (class_node s nm lineno el c ec bases decs body)
      have hL1 := add_node_length s (class_node s nm lineno el c ec bases decs body)
      have h2 := visitStmtList_getElem_ne
        (push_scope (add_node s (class_node s nm lineno el c ec bases decs body)) s.arena.length)
        body j (by rw [push_scope_length, hL1]; omega)
        (by rw [push_scope_stack, List.head?_cons]; intro hc; injection hc with hc2; omega)
      rw [push_scope_getElem] at h2
      have hmeta := visitStmtList_getElem_meta
        (push_scope (add_node s (class_node s nm lineno el c ec bases decs body)) s.arena.length)
        body s.arena.length (by rw [push_scope_length, hL1]; omega)
      rw [push_scope_getElem] at hmeta
      have hlen2 := visitStmtList_length_le
        (push_scope (add_node s (class_node s nm lineno el c ec bases decs body)) s.arena.length) body
      rw [push_scope_length, hL1] at hlen2
      refine ⟨{ old with children := old.children ++ [s.arena.length] }, [s.arena.length],
        h2.trans h1, rfl, rfl, rfl, rfl, ?_, ?_⟩
      · intro k hk
        rw [List.mem_singleton] at hk
        subst hk
        exact ⟨le_refl _, by omega⟩
      · have hl := lineAt_congr hmeta
        have hl2 : lineAt (add_node s (class_node s nm lineno el c ec bases decs body)) s.arena.length = n'.line := by
          unfold lineAt
          rw [hn']
        rw [List.map_singleton, lineAt_pop, hl, hl2, hline']
        rfl
  | functionDef isAsync nm lineno el c ec argsSpec ret decs body =>
      simp only [visitStmt, pop_scope_getElem, pop_scope_length]
      have h1 := add_node_getElem_head s
        (function_node s isAsync nm lineno el c ec argsSpec ret decs body) j old hh hold
      obtain ⟨n', hn', hname', htype', hline', hend', hch', _, _, _⟩ :=
        add_node_getElem_new s (function_node s isAsync nm lineno el c ec argsSpec ret decs body)
      have hL1 := add_node_length s (function_node s isAsync nm lineno el c ec argsSpec ret decs body)
      have h2 := visitStmtList_getElem_ne
        (push_scope (add_node s (function_node s isAsync nm lineno el c ec argsSpec ret decs body)) s.arena.length)
        body j (by rw [push_scope_length, hL1]; omega)
        (by rw [push_scope_stack, List.head?_cons]; intro hc; injection hc with hc2; omega)
      rw [push_scope_getElem] at h2
      have hmeta := visitStmtList_getElem_meta
        (push_scope (add_node s (function_node s isAsync nm lineno el c ec argsSpec ret decs body)) s.arena.length)
        body s.arena.length (by rw [push_scope_length, hL1]; omega)
      rw [push_scope_getElem] at hmeta
      have hlen2 := visitStmtList_length_le
        (push_scope (add_node s (function_node s isAsync nm lineno el c ec argsSpec ret decs body)) s.arena.length) body
      rw [push_scope_length, hL1] at hlen2
      refine ⟨{ old with children := old.children ++ [s.arena.length] }, [s.arena.length],
        h2.trans h1, rfl, rfl, rfl, rfl, ?_, ?_⟩
      · intro k hk
        rw [List.mem_singleton] at hk
        subst hk
        exact ⟨le_refl _, by omega⟩
      · have hl := lineAt_congr hmeta
        have hl2 : lineAt (add_node s (function_node s isAsync nm lineno el c ec argsSpec ret decs body)) s.arena.length = n'.line := by
          unfold lineAt
          rw [hn']
        rw [List.map_singleton, lineAt_pop, hl, hl2, hline']
        rfl
  | assign targets value =>
      simp only [visitStmt]
      have h : (((visitExpr (visitExprList (visit_Assign_record s (targets.map get_name))
          targets) value).arena[j]?).map shape) = ((s.arena[j]?).map shape) := by
        rw [visitExpr_getElem_shape, visitExprList_getElem_shape,
          visit_Assign_record_getElem_shape]
      obtain ⟨new, hnew, hna, hty, hli, hch⟩ := shape_transfer h.symm old hold
      exact ⟨new, [], hnew, hna, hty, hli, by rw [hch, List.append_nil],
        by intro k hk; exact absurd hk (List.not_mem_nil k), rfl⟩
  | exprStmt e =>
      simp only [visitStmt]
      obtain ⟨new, hnew, hna, hty, hli, hch⟩ :=
        shape_transfer (visitExpr_getElem_shape s e j).symm old hold
      exact ⟨new, [], hnew, hna, hty, hli, by rw [hch, List.append_nil],
        by intro k hk; exact absurd hk (List.not_mem_nil k), rfl⟩
  | ifStmt test body orelse =>
      simp only [visitStmt]
      obtain ⟨oldA, holdA, hnaA, htyA, hliA, hchA⟩ :=
        shape_transfer (visitExpr_getElem_shape s test j).symm old hold
      obtain ⟨newB, kidsB, hB, hnaB, htyB, hliB, hchB, hboundsB, hlinesB⟩ :=
        visitStmtList_head_delta (visitExpr s test) body j oldA
          (by rw [visitExpr_stack]; exact hh) holdA
      obtain ⟨newC, kidsC, hC, hnaC, htyC, hliC, hchC, hboundsC, hlinesC⟩ :=
        visitStmtList_head_delta (visitStmtList (visitExpr s test) body) orelse j newB
          (by rw [visitStmtList_stack, visitExpr_stack]; exact hh) hB
      refine ⟨newC, kidsB ++ kidsC, hC, by rw [hnaC, hnaB, hnaA],
        by rw [htyC, htyB, htyA], by rw [hliC, hliB, hliA],
        by rw [hchC, hchB, hchA, List.append_assoc], ?_, ?_⟩
      · intro k hk
        rw [List.mem_append] at hk
        have hLA : (visitExpr s test).arena.length = s.arena.length := visitExpr_length s test
        have hLC := visitStmtList_length_le (visitStmtList (visitExpr s test) body) orelse
        rcases hk with hk | hk
        · obtain ⟨hk1, hk2⟩ := hboundsB k hk
          exact ⟨by omega, by omega⟩
        · obtain ⟨hk1, hk2⟩ := hboundsC k hk
          have hLB := visitStmtList_length_le (visitExpr s test) body
          exact ⟨by omega, hk2⟩
      · have e1 : kidsB.map (lineAt (visitStmtList (visitStmtList (visitExpr s test) body)
            orelse)) = declLinesList body := by
          rw [← hlinesB]
          apply List.map_congr_left
          intro k hk
          obtain ⟨_, hk2⟩ := hboundsB k hk
          exact lineAt_congr (visitStmtList_getElem_meta _ orelse k hk2)
        rw [List.map_append, declLines, e1, hlinesC]

theorem visitStmtList_head_delta (s : VState) (l : List Stmt) (j : Nat) (old : ASTNode)
    (hh : s.scope_stack.head? = some j) (hold : s.arena[j]? = some old) :
    ∃ (new : ASTNode) (kids : List Nat),
      (visitStmtList s l).arena[j]? = some new
      ∧ new.name = old.name ∧ new.type = old.type ∧ new.line = old.line
      ∧ new.children = old.children ++ kids
      ∧ (∀ k ∈ kids, s.arena.length ≤ k ∧ k < (visitStmtList s l).arena.length)
      ∧ kids.map (lineAt (visitStmtList s l)) = declLinesList l := by
  cases l with
  | nil =>
      exact ⟨old, [], hold, rfl, rfl, rfl, (List.append_nil _).symm,
        by intro k hk; exact absurd hk (List.not_mem_nil k), rfl⟩
  | cons st rest =>
      rw [visitStmtList]
      obtain ⟨newB, kidsB, hB, hnaB, htyB, hliB, hchB, hboundsB, hlinesB⟩ :=
        visitStmt_head_delta s st j old hh hold
      obtain ⟨newC, kidsC, hC, hnaC, htyC, hliC, hchC, hboundsC, hlinesC⟩ :=
        visitStmtList_head_delta (visitStmt s st) rest j newB
          (by rw [visitStmt_stack]; exact hh) hB
      refine ⟨newC, kidsB ++ kidsC, hC, by rw [hnaC, hnaB], by rw [htyC, htyB],
        by rw [hliC, hliB], by rw [hchC, hchB, List.append_assoc], ?_, ?_⟩
      · intro k hk
        rw [List.mem_append] at hk
        have hLB := visitStmt_length_le s st
        have hLC := visitStmtList_length_le (visitStmt s st) rest
        rcases hk with hk | hk
        · obtain ⟨hk1, hk2⟩ := hboundsB k hk
          exact ⟨hk1, by omega⟩
        · obtain ⟨hk1, hk2⟩ := hboundsC k hk
          exact ⟨by omega, hk2⟩
      · have e1 : kidsB.map (lineAt (visitStmtList (visitStmt s st) rest))
            = declLines st := by
          rw [← hlinesB]
          apply List.map_congr_left
          intro k hk
          obtain ⟨_, hk2⟩ := hboundsB k hk
          exact lineAt_congr (visitStmtList_getElem_meta _ rest k hk2)
        rw [List.map_append, declLinesList, e1, hlinesC]

end

theorem childLinesAt_pop (s : VState) (k : Nat) :
    childLinesAt (pop_scope s) k = childLinesAt s k := rfl

theorem class_node_children (s : VState) (nm : String) (lineno : Nat) (el : Option Nat)
    (c : Nat) (ec : Option Nat) (bases decs : List Expr) (body : List Stmt) :
    (class_node s nm lineno el c ec bases decs body).children = [] := rfl

theorem function_node_children (s : VState) (isAsync : Bool) (nm : String) (lineno : Nat)
    (el : Option Nat) (c : Nat) (ec : Option Nat) (argsSpec : PyArguments)
    (ret : Option Expr) (decs : List Expr) (body : List Stmt) :
    (function_node s isAsync nm lineno el c ec argsSpec ret decs body).children = [] := rfl

theorem head_ne_of_bounded {s : VState} (hsb : StackBounded s) {k : Nat}
    (hk : s.arena.length ≤ k) : s.scope_stack.head? ≠ some k := by
  cases hs : s.scope_stack with
  | nil => simp
  | cons i rest =>
      simp only [List.head?_cons]
      intro hc
      injection hc with hc
      have := hsb i (by rw [hs]; exact List.mem_cons_self i rest)
      omega

theorem stackBounded_visitExpr (s : VState) (e : Expr) (hsb : StackBounded s) :
    StackBounded (visitExpr s e) := by
  intro i hi
  rw [visitExpr_stack] at hi
  rw [visitExpr_length]
  exact hsb i hi

theorem stackBounded_visitStmt (s : VState) (st : Stmt) (hsb : StackBounded s) :
    StackBounded (visitStmt s st) := by
  intro i hi
  rw [visitStmt_stack] at hi
  exact lt_of_lt_of_le (hsb i hi) (visitStmt_length_le s st)

theorem stackBounded_visitStmtList (s : VState) (l : List Stmt) (hsb : StackBounded s) :
    StackBounded (visitStmtList s l) := by
  intro i hi
  rw [visitStmtList_stack] at hi
  exact lt_of_lt_of_le (hsb i hi) (visitStmtList_length_le s l)

theorem stackBounded_push_add (s : VState) (node : ASTNode) (hsb : StackBounded s) :
    StackBounded (push_scope (add_node s node) s.arena.length) := by
  intro i hi
  rw [push_scope_stack] at hi
  rw [push_scope_length, add_node_length]
  rcases List.mem_cons.mp hi with h | h
  · omega
  · rw [add_node_stack] at h
    have := hsb i h
    omega

/-- Once a node is no longer the top of stack, its children-lines list is
frozen for the rest of the traversal. -/
theorem childLinesAt_persist (s : VState) (l : List Stmt) (k : Nat)
    (hk : k < s.arena.length) (hh : s.scope_stack.head? ≠ some k)
    (hcb : ChildrenBounded s) :
    childLinesAt (visitStmtList s l) k = childLinesAt s k := by
  unfold childLinesAt
  rw [visitStmtList_getElem_ne s l k hk hh]
  cases hE : s.arena[k]? with
  | none => rfl
  | some n =>
      apply List.map_congr_left
      intro c hc
      exact lineAt_congr (visitStmtList_getElem_meta s l c (hcb k n hE c hc))

mutual

/-- Every node created while visiting a lexically well-formed statement
ends up with strictly increasing children start lines. -/
theorem visitStmt_new_sorted (s : VState) (st : Stmt) (hsb : StackBounded s)
    (hcb : ChildrenBounded s) (hlex : lexOK st = true) (k : Nat)
    (hk : s.arena.length ≤ k) :
    sortedLt (childLinesAt (visitStmt s st) k) = true := by
  cases st with
  | classDef nm lineno el c ec bases decs body =>
      simp only [lexOK, Bool.and_eq_true] at hlex
      simp only [visitStmt, childLinesAt_pop]
      rcases eq_or_lt_of_le hk with he | hgt
      · obtain ⟨n', hn', _, _, _, _, hch', _, _, _⟩ :=
          add_node_getElem_new s (class_node s nm lineno el c ec bases decs body)
        obtain ⟨new, kids, hnew, _, _, _, hchn, _, hlines⟩ :=
          visitStmtList_head_delta
            (push_scope (add_node s (class_node s nm lineno el c ec bases decs body))
              s.arena.length) body s.arena.length n'
            (by rw [push_scope_stack]; rfl)
            (by rw [push_scope_getElem]; exact hn')
        have hcl : childLinesAt (visitStmtList
            (push_scope (add_node s (class_node s nm lineno el c ec bases decs body))
              s.arena.length) body) s.arena.length
            = kids.map (lineAt (visitStmtList
                (push_scope (add_node s (class_node s nm lineno el c ec bases decs body))
                  s.arena.length) body)) := by
          unfold childLinesAt
          rw [hnew]
          show new.children.map _ = _
          rw [hchn, hch', class_node_children, List.nil_append]
        rw [← he, hcl, hlines]
        exact hlex.1
      · exact visitStmtList_new_sorted _ body
          (stackBounded_push_add s _ hsb)
          (add_node_children_bounded s _ hcb rfl)
          hlex.2 k (by rw [push_scope_length, add_node_length]; omega)
  | functionDef isAsync nm lineno el c ec argsSpec ret decs body =>
      simp only [lexOK, Bool.and_eq_true] at hlex
      simp only [visitStmt, childLinesAt_pop]
      rcases eq_or_lt_of_le hk with he | hgt
      · obtain ⟨n', hn', _, _, _, _, hch', _, _, _⟩ :=
          add_node_getElem_new s
            (function_node s isAsync nm lineno el c ec argsSpec ret decs body)
        obtain ⟨new, kids, hnew, _, _, _, hchn, _, hlines⟩ :=
          visitStmtList_head_delta
            (push_scope (add_node s
                (function_node s isAsync nm lineno el c ec argsSpec ret decs body))
              s.arena.length) body s.arena.length n'
            (by rw [push_scope_stack]; rfl)
            (by rw [push_scope_getElem]; exact hn')
        have hcl : childLinesAt (visitStmtList
            (push_scope (add_node s
                (function_node s isAsync nm lineno el c ec argsSpec ret decs body))
              s.arena.length) body) s.arena.length
            = kids.map (lineAt (visitStmtList
                (push_scope (add_node s
                    (function_node s isAsync nm lineno el c ec argsSpec ret decs body))
                  s.arena.length) body)) := by
          unfold childLinesAt
          rw [hnew]
          show new.children.map _ = _
          rw [hchn, hch', function_node_children, List.nil_append]
        rw [← he, hcl, hlines]
        exact hlex.1
      · exact visitStmtList_new_sorted _ body
          (stackBounded_push_add s _ hsb)
          (add_node_children_bounded s _ hcb rfl)
          hlex.2 k (by rw [push_scope_length, add_node_length]; omega)
  | assign targets value =>
      have hnone : (visitStmt s (Stmt.assign targets value)).arena[k]? = none := by
        apply List.getElem?_eq_none
        simp only [visitStmt, visitExpr_length, visitExprList_length,
          visit_Assign_record_length]
        exact hk
      unfold childLinesAt
      rw [hnone]
      rfl
  | exprStmt e =>
      have hnone : (visitStmt s (Stmt.exprStmt e)).arena[k]? = none := by
        apply List.getElem?_eq_none
        simp only [visitStmt, visitExpr_length]
        exact hk
      unfold childLinesAt
      rw [hnone]
      rfl
  | ifStmt test body orelse =>
      simp only [lexOK, Bool.and_eq_true] at hlex
      simp only [visitStmt]
      have hsbA := stackBounded_visitExpr s test hsb
      have hcbA := visitExpr_children_bounded s test hcb
      have hLA : (visitExpr s test).arena.length = s.arena.length := visitExpr_length s test
      by_cases hkB : k < (visitStmtList (visitExpr s test) body).arena.length
      · have hsorted := visitStmtList_new_sorted (visitExpr s test) body hsbA hcbA
          hlex.1 k (by omega)
        rw [childLinesAt_persist (visitStmtList (visitExpr s test) body) orelse k hkB
          (by rw [visitStmtList_stack, visitExpr_stack]
              exact head_ne_of_bounded hsb hk)
          (visitStmtList_children_bounded _ body hcbA)]
        exact hsorted
      · exact visitStmtList_new_sorted _ orelse
          (stackBounded_visitStmtList _ body hsbA)
          (visitStmtList_children_bounded _ body hcbA)
          hlex.2 k (by omega)

theorem visitStmtList_new_sorted (s : VState) (l : List Stmt) (hsb : StackBounded s)
    (hcb : ChildrenBounded s) (hlex : lexOKList l = true) (k : Nat)
    (hk : s.arena.length ≤ k) :
    sortedLt (childLinesAt (visitStmtList s l) k) = true := by
  cases l with
  | nil =>
      have hnone : (visitStmtList s []).arena[k]? = none :=
        List.getElem?_eq_none hk
      unfold childLinesAt
      rw [hnone]
      rfl
  | cons st rest =>
      simp only [lexOKList, Bool.and_eq_true] at hlex
      rw [visitStmtList]
      by_cases hkM : k < (visitStmt s st).arena.length
      · have hsorted := visitStmt_new_sorted s st hsb hcb hlex.1 k hk
        rw [childLinesAt_persist (visitStmt s st) rest k hkM
          (by rw [visitStmt_stack]
              exact head_ne_of_bounded hsb hk)
          (visitStmt_children_bounded s st hcb)]
        exact hsorted
      · exact visitStmtList_new_sorted _ rest
          (stackBounded_visitStmt s st hsb)
          (visitStmt_children_bounded s st hcb)
          hlex.2 k (by omega)

end

/-! ## Consequences used by the module-level claims -/

theorem vstate_eq (a b : VState) (h1 : a.file_path = b.file_path) (h2 : a.arena = b.arena)
    (h3 : a.scope_stack = b.scope_stack) (h4 : a.nodes = b.nodes) : a = b := by
  cases a
  cases b
  simp_all

theorem visitExpr_empty_stack (s : VState) (e : Expr) (h : s.scope_stack = []) :
    visitExpr s e = s := by
  apply vstate_eq
  · exact visitExpr_fp s e
  · rw [visitExpr_arena, h]
    rfl
  · exact visitExpr_stack s e
  · exact visitExpr_nodes s e

theorem visitExprList_empty_stack (s : VState) (l : List Expr) (h : s.scope_stack = []) :
    visitExprList s l = s := by
  apply vstate_eq
  · exact visitExprList_fp s l
  · rw [visitExprList_arena, h]
    rfl
  · exact visitExprList_stack s l
  · exact visitExprList_nodes s l

theorem visit_Assign_record_empty_stack (s : VState) (nms : List String)
    (h : s.scope_stack = []) : visit_Assign_record s nms = s := by
  unfold visit_Assign_record
  rw [h]

/-- C1: a call expression is attributed to the innermost currently-open
scope (the top of the scope stack) and to no ancestor; traversal then
continues into the call's sub-expressions.  Stated in full generality for
any expression visited with a non-empty scope stack — the whole effect is
one point-update of the top-of-stack node appending the collected callee
names (`collectCalls`, whose `call` equation records the callee first and
then recurses into `func` and the arguments) — together with the nested
`f`/`g` end-to-end instance: the call to `h` (with a nested call to `k`
in its argument) lands in `g.calls`, never in `f.calls`. -/
theorem claim_C1 :
    (∀ (s : VState) (e : Expr) (i : Nat) (rest : List Nat),
      s.scope_stack = i :: rest →
        (visitExpr s e).arena = modifyAt (add_calls (collectCalls e)) i s.arena
        ∧ (visitExpr s e).scope_stack = s.scope_stack
        ∧ ((visitExpr s e).arena[i]?).map (fun n => n.calls)
            = (s.arena[i]?).map (fun n => n.calls ++ collectCalls e)
        ∧ (∀ j : Nat, j ≠ i → (visitExpr s e).arena[j]? = s.arena[j]?))
    ∧ (visitFile "a.py"
        [.functionDef false "f" 1 (some 3) 0 (some 10) ⟨[], [], none, [], none⟩ none []
          [.functionDef false "g" 2 (some 3) 2 (some 10) ⟨[], [], none, [], none⟩ none []
            [.exprStmt (.call (.name "h") [.call (.name "k") []])]]]).arena.map
          (fun n => (n.name, n.calls))
        = [("f", []), ("g", ["h", "k"])] := by
  constructor
  · intro s e i rest h
    refine ⟨?_, visitExpr_stack s e, ?_, ?_⟩
    · rw [visitExpr_arena, h]
      rfl
    · rw [visitExpr_arena, h]
      show ((modifyAt (add_calls (collectCalls e)) i s.arena)[i]?).map _ = _
      rw [getElem?_modifyAt_self]
      cases s.arena[i]? <;> simp [add_calls]
    · intro j hj
      rw [visitExpr_arena, h]
      show (modifyAt (add_calls (collectCalls e)) i s.arena)[j]? = _
      exact getElem?_modifyAt_ne _ _ _ _ hj
  · rfl

/-- C1 witness: the general part of `claim_C1` applied at a concrete
state with a one-element scope stack and the expression `h(k())`. -/
theorem claim_C1_witness :
    (visitExpr
        { file_path := "a.py",
          arena := [{ name := "g", type := "function", line := 2, end_line := 3,
                      col_offset := 2, end_col_offset := 10 }],
          scope_stack := [0],
          nodes := [0] }
        (.call (.name "h") [.call (.name "k") []])).arena
      = modifyAt (add_calls (collectCalls (.call (.name "h") [.call (.name "k") []]))) 0
          [{ name := "g", type := "function", line := 2, end_line := 3,
             col_offset := 2, end_col_offset := 10 }] := by
  exact (claim_C1.1
    { file_path := "a.py",
      arena := [{ name := "g", type := "function", line := 2, end_line := 3,
                  col_offset := 2, end_col_offset := 10 }],
      scope_stack := [0],
      nodes := [0] }
    (.call (.name "h") [.call (.name "k") []]) 0 [] rfl).1

/-- C2: the scope stack is empty before traversal starts
(`ASTVisitor.__init__`) and empty again after it ends — more strongly,
visiting any statement list restores the stack it started from, so every
push is matched by exactly one pop — and on lexically well-formed input
every node of the resulting forest has strictly increasing children
start lines. -/
theorem claim_C2 :
    (∀ fp : String, (init_state fp).scope_stack = [])
    ∧ (∀ (s : VState) (l : List Stmt), (visitStmtList s l).scope_stack = s.scope_stack)
    ∧ (∀ (fp : String) (body : List Stmt), (visitFile fp body).scope_stack = [])
    ∧ (∀ (fp : String) (body : List Stmt), lexOKList body = true →
        ∀ k : Nat, sortedLt (childLinesAt (visitFile fp body) k) = true) := by
  refine ⟨fun fp => rfl, visitStmtList_stack, ?_, ?_⟩
  · intro fp body
    exact visitStmtList_stack (init_state fp) body
  · intro fp body hlex k
    refine visitStmtList_new_sorted (init_state fp) body ?_ ?_ hlex k (Nat.zero_le k)
    · intro i hi
      exact absurd hi (List.not_mem_nil i)
    · intro j n hn
      rw [show (init_state fp).arena[j]? = none from rfl] at hn
      exact fun c hc => absurd hn (by simp)

/-- C2 witness: `claim_C2` applied to a file with a class holding two
methods (lines 2 and 3); the well-formedness side condition is discharged
by evaluation and the children of the class node come out sorted. -/
theorem claim_C2_witness :
    lexOKList
        [Stmt.classDef "A" 1 (some 3) 0 (some 10) [] []
          [.functionDef false "m1" 2 (some 2) 2 (some 10) ⟨[], [], none, [], none⟩ none [] [],
           .functionDef false "m2" 3 (some 3) 2 (some 10) ⟨[], [], none, [], none⟩ none [] []]]
        = true
    ∧ sortedLt (childLinesAt (visitFile "w.py"
        [Stmt.classDef "A" 1 (some 3) 0 (some 10) [] []
          [.functionDef false "m1" 2 (some 2) 2 (some 10) ⟨[], [], none, [], none⟩ none [] [],
           .functionDef false "m2" 3 (some 3) 2 (some 10) ⟨[], [], none, [], none⟩ none [] []]])
        0) = true := by
  refine ⟨rfl, ?_⟩
  exact claim_C2.2.2.2 "w.py"
    [Stmt.classDef "A" 1 (some 3) 0 (some 10) [] []
      [.functionDef false "m1" 2 (some 2) 2 (some 10) ⟨[], [], none, [], none⟩ none [] [],
       .functionDef false "m2" 3 (some 3) 2 (some 10) ⟨[], [], none, [], none⟩ none [] []]]
    rfl 0

/-- C10: module-level call expressions and assignments (visited while the
scope stack is empty) are recorded nowhere — visiting them is a complete
no-op on the state — and the builder never creates a Declaration Node of
kind `module`: every node in the final arena is a class, function or
async function. -/
theorem claim_C10 :
    (∀ (s : VState) (e : Expr), s.scope_stack = [] → visitExpr s e = s)
    ∧ (∀ (s : VState) (targets : List Expr) (value : Expr), s.scope_stack = [] →
        visitStmt s (.assign targets value) = s)
    ∧ (∀ (s : VState) (e : Expr), s.scope_stack = [] → visitStmt s (.exprStmt e) = s)
    ∧ (∀ (fp : String) (body : List Stmt) (j : Nat) (n : ASTNode),
        (visitFile fp body).arena[j]? = some n → n.type ≠ "module") := by
  refine ⟨visitExpr_empty_stack, ?_, ?_, ?_⟩
  · intro s targets value h
    show visitExpr (visitExprList (visit_Assign_record s (targets.map get_name)) targets)
        value = s
    rw [visit_Assign_record_empty_stack s _ h, visitExprList_empty_stack s targets h,
      visitExpr_empty_stack s value h]
  · intro s e h
    exact visitExpr_empty_stack s e h
  · intro fp body j n hn
    have hinv : TypeInv (visitFile fp body) := by
      apply visitStmtList_type_inv
      intro j0 n0 hn0
      rw [show (init_state fp).arena[j0]? = none from rfl] at hn0
      exact absurd hn0 (by simp)
    rcases hinv j n hn with h | h | h <;> rw [h] <;> decide

/-- C10 witness: `claim_C10` applied at a concrete module-level state (a
call statement visited with an empty scope stack leaves the state
untouched) and at the concrete output node of a one-class file. -/
theorem claim_C10_witness :
    visitStmt { file_path := "m.py", arena := [], scope_stack := [], nodes := [] }
        (.exprStmt (.call (.name "print") []))
      = { file_path := "m.py", arena := [], scope_stack := [], nodes := [] }
    ∧ ({ name := "A", type := "class", line := 1, end_line := 1, col_offset := 0,
         end_col_offset := 8, file_path := some "m.py" } : ASTNode).type ≠ "module" := by
  constructor
  · exact claim_C10.2.2.1 { file_path := "m.py", arena := [], scope_stack := [], nodes := [] }
      (.call (.name "print") []) rfl
  · exact claim_C10.2.2.2 "m.py" [.classDef "A" 1 (some 1) 0 (some 8) [] [] []] 0
      { name := "A", type := "class", line := 1, end_line := 1, col_offset := 0,
        end_col_offset := 8, file_path := some "m.py" } rfl

/-! ## `embeddings.py`: the Content Extractor and the Semantic Index -/

/-- The `CodeItem` dataclass (embeddings.py lines 11-17).  Vector
components are modelled as exact rationals (every IEEE double is a
rational). -/
structure CodeItem where
  name : String
  type : String
  file_path : String
  content : String
  embedding : Option (List ℚ) := none
deriving DecidableEq, Repr

/-- Python truthiness of an optional string: `None` and `""` are falsy. -/
def truthyStr : Option String → Bool
  | none => false
  | some s => !(s == "")

/-- `EmbeddingManager._extract_content` (embeddings.py lines 61-93): the
six fields are appended in this fixed order when truthy, then joined with
`" | "`. -/
def extract_content (info : ASTNode) : String :=
  let content_parts : List String := []
  let content_parts := if truthyStr info.docstring then
      content_parts ++ ["Description: " ++ info.docstring.getD ""]
    else content_parts
  let content_parts := if info.arguments ≠ [] then
      content_parts ++ ["Parameters: " ++ String.intercalate ", " info.arguments]
    else content_parts
  let content_parts := if truthyStr info.returns then
      content_parts ++ ["Returns: " ++ info.returns.getD ""]
    else content_parts
  let content_parts := if info.bases ≠ [] then
      content_parts ++ ["Inherits from: " ++ String.intercalate ", " info.bases]
    else content_parts
  let content_parts := if info.calls ≠ [] then
      content_parts ++ ["Calls: " ++ String.intercalate ", " info.calls]
    else content_parts
  let content_parts := if info.assignments ≠ [] then
      content_parts ++ ["Assigns: " ++ String.intercalate ", " info.assignments]
    else content_parts
  String.intercalate " | " content_parts

/-- The digest as §4.2 of the spec words it: a fixed-order filter of the
present fields, rendered and joined with `" | "`. -/
def digestSpec (info : ASTNode) : String :=
  String.intercalate " | " (List.filterMap id [
    (match info.docstring with
     | some d => if d = "" then none else some ("Description: " ++ d)
     | none => none),
    (if info.arguments = [] then none
     else some ("Parameters: " ++ String.intercalate ", " info.arguments)),
    (match info.returns with
     | some r => if r = "" then none else some ("Returns: " ++ r)
     | none => none),
    (if info.bases = [] then none
     else some ("Inherits from: " ++ String.intercalate ", " info.bases)),
    (if info.calls = [] then none
     else some ("Calls: " ++ String.intercalate ", " info.calls)),
    (if info.assignments = [] then none
     else some ("Assigns: " ++ String.intercalate ", " info.assignments))])

/-- The per-item input string of the embedding batch,
`f"{item.name}: {item.content}"` (embeddings.py line 108). -/
def embed_input (it : CodeItem) : String := it.name ++ ": " ++ it.content

/-- The in-place `for item, embedding_data in zip(items_to_embed,
response.data): item.embedding = ...` of embeddings.py lines 112-113,
applied to the full item list: items still missing a vector receive the
returned vectors in order (`zip` truncates if the provider returns too
few). -/
def assignPending : List CodeItem → List (List ℚ) → List CodeItem
  | [], _ => []
  | it :: its, vs =>
      if it.embedding.isNone then
        match vs with
        | [] => it :: assignPending its []
        | v :: vs2 => { it with embedding := some v } :: assignPending its vs2
      else it :: assignPending its vs

/-- Result of one `generate_embeddings` call: the final item list, the
provider requests issued (each a list of input strings), what was written
to the cache (if anything), and the raised error (if any). -/
structure GenResult where
  items : List CodeItem
  requests : List (List String)
  saved : Option (List CodeItem)
  error : Option String
deriving DecidableEq, Repr

/-- `EmbeddingManager.generate_embeddings` (embeddings.py lines 95-119).
The OpenAI client is a function argument; a raised provider exception is
an `Except.error`, re-raised with the `Failed to generate embeddings: `
prefix.  On success the mutated collection is pickled to the cache
(`_save_cache`, lines 171-175). -/
def generate_embeddings (provider : List String → Except String (List (List ℚ)))
    (items : List CodeItem) : GenResult :=
  match items with
  | [] => { items := items, requests := [], saved := none, error := none }
  | _ :: _ =>
      let pending := items.filter (fun it => it.embedding.isNone)
      if pending.isEmpty then
        { items := items, requests := [], saved := none, error := none }
      else
        let inputs := pending.map embed_input
        match provider inputs with
        | .error e =>
            { items := items, requests := [inputs], saved := none,
              error := some ("Failed to generate embeddings: " ++ e) }
        | .ok vecs =>
            let items2 := assignPending items vecs
            { items := items2, requests := [inputs], saved := some items2, error := none }

/-! ## Cosine similarity and `find_similar`

Scores are modelled as reals.  numpy produces the NaN *value* (with a
`RuntimeWarning`, not an exception) for the division `0.0 / 0.0` in
`_cosine_similarity`; `NpFloat.nan` models it.  A zero denominator in
this function forces a zero numerator (`dot_eq_zero_of_norm_mul_eq_zero`
below), so the zero-denominator branch is exactly the NaN case. -/

inductive NpFloat where
  | val (x : ℝ)
  | nan

/-- `np.dot` on two equal-length float lists. -/
def dot (a b : List ℚ) : ℚ := (List.zipWith (· * ·) a b).sum

/-- Sum of squares of the entries. -/
def sumSq (a : List ℚ) : ℚ := (a.map (fun x => x * x)).sum

/-- `np.linalg.norm`: the Euclidean norm. -/
noncomputable def norm (a : List ℚ) : ℝ := Real.sqrt ((sumSq a : ℚ) : ℝ)

/-- `EmbeddingManager._cosine_similarity` (embeddings.py lines 148-150):
`np.dot(a, b) / (np.linalg.norm(a) * np.linalg.norm(b))`. -/
noncomputable def cosine_similarity (a b : List ℚ) : NpFloat :=
  if norm a * norm b = 0 then NpFloat.nan
  else NpFloat.val (((dot a b : ℚ) : ℝ) / (norm a * norm b))

/-- The scoring loop of `find_similar` (embeddings.py lines 132-139):
items without a vector are skipped; `similarity >= threshold` is `False`
when the similarity is NaN, so NaN comparisons are skipped too. -/
noncomputable def scoreItems (qe : List ℚ) (threshold : ℝ) : List CodeItem → List (CodeItem × ℝ)
  | [] => []
  | it :: rest =>
      match it.embedding with
      | none => scoreItems qe threshold rest
      | some emb =>
          match cosine_similarity qe emb with
          | NpFloat.nan => scoreItems qe threshold rest
          | NpFloat.val x =>
              if threshold ≤ x then (it, x) :: scoreItems qe threshold rest
              else scoreItems qe threshold rest

/-- Insert into a descending-sorted list, after any equal scores. -/
noncomputable def insertDesc (p : CodeItem × ℝ) :
    List (CodeItem × ℝ) → List (CodeItem × ℝ)
  | [] => [p]
  | q :: rest => if q.2 < p.2 then p :: q :: rest else q :: insertDesc p rest

/-- `results.sort(key=lambda x: x[1], reverse=True)` (embeddings.py line
142).  Python's sort is stable; a stable descending sort is uniquely
determined by being a permutation, non-increasing in the key, and keeping
equal-key elements in input order — all three are proved below for this
insertion sort, so it coincides with the source's Timsort call. -/
noncomputable def sortDesc (l : List (CodeItem × ℝ)) : List (CodeItem × ℝ) :=
  l.foldl (fun acc p => insertDesc p acc) []

/-- `EmbeddingManager.find_similar` (embeddings.py lines 121-146): embed
the query (one provider call), score, sort descending, return the first
`limit`.  A provider failure (or an empty provider response, on which
`response.data[0]` raises `IndexError`) is re-raised with the
`Failed to find similar items: ` prefix. -/
noncomputable def find_similar (provider : List String → Except String (List (List ℚ)))
    (items : List CodeItem) (query : String) (limit : Nat) (threshold : ℝ) :
    Except String (List (CodeItem × ℝ)) :=
  match provider [query] with
  | .error e => .error ("Failed to find similar items: " ++ e)
  | .ok [] => .error ("Failed to find similar items: list index out of range")
  | .ok (qe :: _) => .ok ((sortDesc (scoreItems qe threshold items)).take limit)

/-- Singleton-or-empty view of an optional string. -/
def optList : Option String → List String
  | some s => [s]
  | none => []

theorem append_ite (c : Prop) [Decidable c] (l : List String) (x : String) :
    (if c then l ++ [x] else l) = l ++ (if c then [x] else []) := by
  split_ifs <;> simp

theorem filterMap_id_six (o1 o2 o3 o4 o5 o6 : Option String) :
    List.filterMap id [o1, o2, o3, o4, o5, o6]
      = optList o1 ++ (optList o2 ++ (optList o3 ++ (optList o4
          ++ (optList o5 ++ optList o6)))) := by
  cases o1 <;> cases o2 <;> cases o3 <;> cases o4 <;> cases o5 <;> cases o6 <;> rfl

theorem part_opt_str (o : Option String) (lbl : String) :
    (if truthyStr o then [lbl ++ o.getD ""] else [])
      = optList (match o with
          | some d => if d = "" then none else some (lbl ++ d)
          | none => none) := by
  cases o with
  | none => rfl
  | some d =>
      by_cases hd : d = ""
      · simp [truthyStr, hd, optList]
      · simp [truthyStr, hd, optList]

theorem part_list (l : List String) (lbl : String) :
    (if l ≠ [] then [lbl ++ String.intercalate ", " l] else [])
      = optList (if l = [] then none else some (lbl ++ String.intercalate ", " l)) := by
  by_cases hl : l = [] <;> simp [hl, optList]

/-- C3: the digest is pure and deterministic (it is a function of the
node alone, so two applications to equal nodes agree), it renders exactly
the present/non-empty fields as `"<Label>: <value>"` joined with `" | "`
in the fixed order Description, Parameters, Returns, Inherits from,
Calls, Assigns (refinement against the spec-worded `digestSpec`), and it
is the empty string when no field is present. -/
theorem claim_C3 :
    (∀ info : ASTNode, extract_content info = digestSpec info)
    ∧ (∀ info info' : ASTNode, info = info' → extract_content info = extract_content info')
    ∧ extract_content { name := "empty", type := "function", line := 1, end_line := 1,
                        col_offset := 0, end_col_offset := 0 } = "" := by
  refine ⟨?_, fun info info' h => h ▸ rfl, rfl⟩
  intro info
  unfold extract_content digestSpec
  dsimp only
  rw [filterMap_id_six]
  rw [append_ite, append_ite, append_ite, append_ite, append_ite, append_ite]
  rw [← part_opt_str info.docstring "Description: ",
    ← part_opt_str info.returns "Returns: ",
    ← part_list info.arguments "Parameters: ",
    ← part_list info.bases "Inherits from: ",
    ← part_list info.calls "Calls: ",
    ← part_list info.assignments "Assigns: "]
  simp [List.append_assoc]

/-- C3 witness: the refinement and determinism parts of `claim_C3`
applied at a concrete function node. -/
theorem claim_C3_witness :
    extract_content { name := "f", type := "function", line := 1, end_line := 2,
                      col_offset := 0, end_col_offset := 8, docstring := some "Doc",
                      arguments := ["self", "x: int"], calls := ["self.g"] }
      = digestSpec { name := "f", type := "function", line := 1, end_line := 2,
                     col_offset := 0, end_col_offset := 8, docstring := some "Doc",
                     arguments := ["self", "x: int"], calls := ["self.g"] }
    ∧ extract_content { name := "f", type := "function", line := 1, end_line := 2,
                        col_offset := 0, end_col_offset := 8, docstring := some "Doc",
                        arguments := ["self", "x: int"], calls := ["self.g"] }
      = extract_content { name := "f", type := "function", line := 1, end_line := 2,
                          col_offset := 0, end_col_offset := 8, docstring := some "Doc",
                          arguments := ["self", "x: int"], calls := ["self.g"] } := by
  constructor
  · exact claim_C3.1 { name := "f", type := "function", line := 1, end_line := 2,
                       col_offset := 0, end_col_offset := 8, docstring := some "Doc",
                       arguments := ["self", "x: int"], calls := ["self.g"] }
  · exact claim_C3.2.1 _ _ rfl

/-! ## Lemmas about `generate_embeddings` -/

theorem codeItem_update_self (it : CodeItem) (x : Option (List ℚ)) (h : it.embedding = x) :
    { it with embedding := x } = it := by
  cases it
  simp_all

theorem length_assignPending (items : List CodeItem) (vecs : List (List ℚ)) :
    (assignPending items vecs).length = items.length := by
  induction items generalizing vecs with
  | nil => rfl
  | cons it its ih =>
      unfold assignPending
      by_cases h : it.embedding.isNone
      · rw [if_pos h]
        cases vecs with
        | nil => simp [ih]
        | cons v vs2 => simp [ih]
      · rw [if_neg h]
        simp [ih]

/-- Positional characterization of the zip assignment: the item at
position `k` keeps its fields, and — when it was pending — its embedding
becomes the vector whose index is the number of pending items before
position `k` (or stays absent if the provider returned too few). -/
theorem assignPending_getElem (items : List CodeItem) (vecs : List (List ℚ)) :
    ∀ (k : Nat) (it : CodeItem), items[k]? = some it →
      (assignPending items vecs)[k]?
        = some (if it.embedding.isNone
            then { it with embedding :=
              vecs[((items.take k).filter (fun x => x.embedding.isNone)).length]? }
            else it) := by
  induction items generalizing vecs with
  | nil => intro k it h; simp at h
  | cons it0 its ih =>
      intro k it h
      cases k with
      | zero =>
          rw [List.getElem?_cons_zero] at h
          injection h with h
          subst h
          unfold assignPending
          by_cases h0 : it0.embedding.isNone
          · rw [if_pos h0]
            cases vecs with
            | nil =>
                have he : it0.embedding = none := Option.isNone_iff_eq_none.mp h0
                simp only [List.getElem?_cons_zero, List.take_zero, List.filter_nil,
                  List.length_nil, List.getElem?_nil, if_pos h0]
                rw [codeItem_update_self it0 none he]
            | cons v vs2 =>
                simp only [List.getElem?_cons_zero, List.take_zero, List.filter_nil,
                  List.length_nil, if_pos h0]
          · rw [if_neg h0]
            simp only [List.getElem?_cons_zero, if_neg h0]
      | succ k =>
          rw [List.getElem?_cons_succ] at h
          unfold assignPending
          by_cases h0 : it0.embedding.isNone
          · rw [if_pos h0]
            cases vecs with
            | nil =>
                rw [List.getElem?_cons_succ, ih [] k it h]
                simp only [List.getElem?_nil]
            | cons v vs2 =>
                rw [List.getElem?_cons_succ, ih vs2 k it h]
                simp only [List.take_succ_cons, List.filter_cons, h0, if_true,
                  List.length_cons, List.getElem?_cons_succ]
          · rw [if_neg h0]
            rw [List.getElem?_cons_succ, ih vecs k it h]
            simp only [List.take_succ_cons, List.filter_cons, h0, Bool.false_eq_true,
              if_false, List.getElem?_cons_succ]

/-- When the provider honoured its contract (enough vectors), nothing is
left pending after the assignment. -/
theorem assignPending_filter_none (items : List CodeItem) (vecs : List (List ℚ))
    (hlen : (items.filter (fun it => it.embedding.isNone)).length ≤ vecs.length) :
    (assignPending items vecs).filter (fun it => it.embedding.isNone) = [] := by
  induction items generalizing vecs with
  | nil => rfl
  | cons it0 its ih =>
      unfold assignPending
      by_cases h0 : it0.embedding.isNone
      · rw [if_pos h0]
        simp only [List.filter_cons, h0, if_true, List.length_cons] at hlen
        cases vecs with
        | nil => simp at hlen
        | cons v vs2 =>
            simp only [List.filter_cons, Option.isNone_some, Bool.false_eq_true, if_false]
            exact ih vs2 (by simpa using hlen)
      · rw [if_neg h0]
        simp only [List.filter_cons, h0, Bool.false_eq_true, if_false] at hlen ⊢
        exact ih vecs hlen

theorem generate_embeddings_no_pending (provider : List String → Except String (List (List ℚ)))
    (items : List CodeItem)
    (hpend : items.filter (fun it => it.embedding.isNone) = []) :
    generate_embeddings provider items
      = { items := items, requests := [], saved := none, error := none } := by
  unfold generate_embeddings
  cases items with
  | nil => rfl
  | cons it0 its =>
      dsimp only
      rw [if_pos (by rw [List.isEmpty_iff]; exact hpend)]

/-- C5: `generate_embeddings` (the spec's `embed_pending`) selects
exactly the items whose vector is absent; with no pending items it is a
no-op success issuing no provider request; otherwise it issues exactly
one batched request whose inputs are `"<name>: <digest>"` for the
selected items in order, and on an order-preserving provider reply the
vectors are assigned back positionally (the k-th pending item receives
the k-th vector; non-pending items are untouched); consequently a second
call with no new items issues zero provider requests. -/
theorem claim_C5 (provider provider2 : List String → Except String (List (List ℚ)))
    (items : List CodeItem) (vecs : List (List ℚ))
    (hok : provider ((items.filter (fun it => it.embedding.isNone)).map embed_input)
      = .ok vecs)
    (hlen : (items.filter (fun it => it.embedding.isNone)).length ≤ vecs.length) :
    (generate_embeddings provider items).error = none
    ∧ (generate_embeddings provider items).requests
        = (if items.filter (fun it => it.embedding.isNone) = [] then []
           else [(items.filter (fun it => it.embedding.isNone)).map embed_input])
    ∧ (generate_embeddings provider items).items.length = items.length
    ∧ (∀ (k : Nat) (it : CodeItem), items[k]? = some it →
        (generate_embeddings provider items).items[k]?
          = some (if it.embedding.isNone
              then { it with embedding :=
                vecs[((items.take k).filter (fun x => x.embedding.isNone)).length]? }
              else it))
    ∧ (generate_embeddings provider2 (generate_embeddings provider items).items).requests
        = [] := by
  by_cases hpend : items.filter (fun it => it.embedding.isNone) = []
  · rw [generate_embeddings_no_pending provider items hpend, if_pos hpend]
    refine ⟨rfl, rfl, rfl, ?_, ?_⟩
    · intro k it h
      have hmem : it ∈ items := List.mem_iff_getElem?.mpr ⟨k, h⟩
      have hnp : ¬ it.embedding.isNone = true := by
        intro hyes
        have : it ∈ items.filter (fun it => it.embedding.isNone) :=
          List.mem_filter.mpr ⟨hmem, hyes⟩
        rw [hpend] at this
        exact absurd this (List.not_mem_nil it)
      rw [if_neg hnp, h]
    · rw [generate_embeddings_no_pending provider2 items hpend]
  · have hres : generate_embeddings provider items
        = { items := assignPending items vecs,
            requests := [(items.filter (fun it => it.embedding.isNone)).map embed_input],
            saved := some (assignPending items vecs), error := none } := by
      unfold generate_embeddings
      cases items with
      | nil => exact absurd rfl hpend
      | cons it0 its =>
          dsimp only
          rw [if_neg (by rw [List.isEmpty_iff]; exact hpend), hok]
    rw [hres, if_neg hpend]
    refine ⟨rfl, rfl, length_assignPending items vecs, assignPending_getElem items vecs, ?_⟩
    rw [generate_embeddings_no_pending provider2 (assignPending items vecs)
      (assignPending_filter_none items vecs hlen)]

/-- C5 witness: `claim_C5` applied to a single pending item and a
provider returning one vector. -/
theorem claim_C5_witness :
    (generate_embeddings (fun _ => .ok [[(1 : ℚ)]])
        [{ name := "a", type := "function", file_path := "f.py", content := "dg" }]).requests
      = [["a: dg"]]
    ∧ (generate_embeddings (fun _ => .ok [[(1 : ℚ)]])
        [{ name := "a", type := "function", file_path := "f.py", content := "dg" }]).items[0]?
      = some { name := "a", type := "function", file_path := "f.py", content := "dg",
               embedding := some [(1 : ℚ)] }
    ∧ (generate_embeddings (fun _ => .error "down")
        (generate_embeddings (fun _ => .ok [[(1 : ℚ)]])
          [{ name := "a", type := "function", file_path := "f.py",
             content := "dg" }]).items).requests = [] := by
  have h := claim_C5 (fun _ => .ok [[(1 : ℚ)]]) (fun _ => .error "down")
    [{ name := "a", type := "function", file_path := "f.py", content := "dg" }]
    [[(1 : ℚ)]] rfl (by decide)
  refine ⟨?_, ?_, h.2.2.2.2⟩
  · rw [h.2.1]
    rfl
  · rw [h.2.2.2.1 0 { name := "a", type := "function", file_path := "f.py", content := "dg" }
      rfl]
    rfl

/-- C6: when the provider fails during the batch, nothing is mutated (the
item collection is returned unchanged, no vector is assigned), the cache
is not written, the failure is surfaced to the caller with the
`Failed to generate embeddings: ` prefix, and exactly one (unretried)
request was made; on provider success the full final collection is
persisted to the cache and no error is raised. -/
theorem claim_C6 (providerF providerS : List String → Except String (List (List ℚ)))
    (items : List CodeItem) (e : String) (vecs : List (List ℚ))
    (hpend : items.filter (fun it => it.embedding.isNone) ≠ [])
    (hfail : providerF ((items.filter (fun it => it.embedding.isNone)).map embed_input)
      = .error e)
    (hsucc : providerS ((items.filter (fun it => it.embedding.isNone)).map embed_input)
      = .ok vecs) :
    (generate_embeddings providerF items).items = items
    ∧ (generate_embeddings providerF items).saved = none
    ∧ (generate_embeddings providerF items).error
        = some ("Failed to generate embeddings: " ++ e)
    ∧ (generate_embeddings providerF items).requests
        = [(items.filter (fun it => it.embedding.isNone)).map embed_input]
    ∧ (generate_embeddings providerS items).saved
        = some (generate_embeddings providerS items).items
    ∧ (generate_embeddings providerS items).error = none := by
  have hresF : generate_embeddings providerF items
      = { items := items,
          requests := [(items.filter (fun it => it.embedding.isNone)).map embed_input],
          saved := none, error := some ("Failed to generate embeddings: " ++ e) } := by
    unfold generate_embeddings
    cases items with
    | nil => exact absurd rfl hpend
    | cons it0 its =>
        dsimp only
        rw [if_neg (by rw [List.isEmpty_iff]; exact hpend), hfail]
  have hresS : generate_embeddings providerS items
      = { items := assignPending items vecs,
          requests := [(items.filter (fun it => it.embedding.isNone)).map embed_input],
          saved := some (assignPending items vecs), error := none } := by
    unfold generate_embeddings
    cases items with
    | nil => exact absurd rfl hpend
    | cons it0 its =>
        dsimp only
        rw [if_neg (by rw [List.isEmpty_iff]; exact hpend), hsucc]
  rw [hresF, hresS]
  exact ⟨rfl, rfl, rfl, rfl, rfl, rfl⟩

/-- C6 witness: `claim_C6` applied to one pending item, a failing
provider and a succeeding provider. -/
theorem claim_C6_witness :
    (generate_embeddings (fun _ => .error "boom")
        [{ name := "a", type := "function", file_path := "f.py", content := "dg" }]).items
      = [{ name := "a", type := "function", file_path := "f.py", content := "dg" }]
    ∧ (generate_embeddings (fun _ => .error "boom")
        [{ name := "a", type := "function", file_path := "f.py", content := "dg" }]).saved
      = none
    ∧ (generate_embeddings (fun _ => .error "boom")
        [{ name := "a", type := "function", file_path := "f.py", content := "dg" }]).error
      = some "Failed to generate embeddings: boom"
    ∧ (generate_embeddings (fun _ => .ok [[(2 : ℚ)]])
        [{ name := "a", type := "function", file_path := "f.py", content := "dg" }]).saved
      = some (generate_embeddings (fun _ => .ok [[(2 : ℚ)]])
          [{ name := "a", type := "function", file_path := "f.py", content := "dg" }]).items := by
  have h := claim_C6 (fun _ => .error "boom") (fun _ => .ok [[(2 : ℚ)]])
    [{ name := "a", type := "function", file_path := "f.py", content := "dg" }]
    "boom" [[(2 : ℚ)]] (by decide) rfl rfl
  exact ⟨h.1, h.2.1, h.2.2.1, h.2.2.2.2.1⟩

/-! ## Arithmetic facts about `dot`, `sumSq` and `norm` -/

theorem dot_comm (a b : List ℚ) : dot a b = dot b a := by
  unfold dot
  induction a generalizing b with
  | nil => cases b <;> rfl
  | cons x xs ih =>
      cases b with
      | nil => rfl
      | cons y ys => simp [List.zipWith, mul_comm x y, ih ys]

theorem dot_self (a : List ℚ) : dot a a = sumSq a := by
  unfold dot sumSq
  induction a with
  | nil => rfl
  | cons x xs ih => simp [List.zipWith, ih]

theorem sumSq_nonneg (a : List ℚ) : 0 ≤ sumSq a := by
  unfold sumSq
  induction a with
  | nil => exact le_refl 0
  | cons x xs ih =>
      simp only [List.map_cons, List.sum_cons]
      exact add_nonneg (mul_self_nonneg x) ih

theorem sumSq_eq_zero (a : List ℚ) (h : sumSq a = 0) : ∀ x ∈ a, x = 0 := by
  induction a with
  | nil => intro x hx; exact absurd hx (List.not_mem_nil x)
  | cons y ys ih =>
      unfold sumSq at h
      simp only [List.map_cons, List.sum_cons] at h
      have h1 : 0 ≤ y * y := mul_self_nonneg y
      have h2 : 0 ≤ sumSq ys := sumSq_nonneg ys
      have h2' : (ys.map (fun x => x * x)).sum = sumSq ys := rfl
      rw [h2'] at h
      have hy : y * y = 0 := by linarith
      intro x hx
      rcases List.mem_cons.mp hx with rfl | hx
      · exact mul_self_eq_zero.mp hy
      · exact ih (by linarith) x hx

theorem dot_zero_left (a b : List ℚ) (h : ∀ x ∈ a, x = 0) : dot a b = 0 := by
  unfold dot
  induction a generalizing b with
  | nil => cases b <;> rfl
  | cons x xs ih =>
      cases b with
      | nil => rfl
      | cons y ys =>
          simp only [List.zipWith, List.sum_cons]
          rw [h x (List.mem_cons_self x xs), zero_mul, zero_add]
          exact ih ys (fun z hz => h z (List.mem_cons_of_mem x hz))

theorem norm_eq_zero_iff (a : List ℚ) : norm a = 0 ↔ sumSq a = 0 := by
  unfold norm
  rw [Real.sqrt_eq_zero (by exact_mod_cast sumSq_nonneg a)]
  exact_mod_cast Iff.rfl

/-- A zero denominator in `_cosine_similarity` forces a zero numerator:
the division producing NaN is always the `0.0 / 0.0` case. -/
theorem dot_eq_zero_of_norm_mul_eq_zero (a b : List ℚ) (h : norm a * norm b = 0) :
    dot a b = 0 := by
  rcases mul_eq_zero.mp h with h0 | h0
  · exact dot_zero_left a b (sumSq_eq_zero a ((norm_eq_zero_iff a).mp h0))
  · rw [dot_comm]
    exact dot_zero_left b a (sumSq_eq_zero b ((norm_eq_zero_iff b).mp h0))

/-- C9: cosine similarity is symmetric, and a non-zero vector has
similarity exactly 1 with itself (real-valued model of the floats). -/
theorem claim_C9 :
    (∀ a b : List ℚ, cosine_similarity a b = cosine_similarity b a)
    ∧ (∀ a : List ℚ, (∃ x ∈ a, x ≠ 0) → cosine_similarity a a = NpFloat.val 1) := by
  constructor
  · intro a b
    unfold cosine_similarity
    rw [mul_comm (norm a) (norm b), dot_comm a b]
  · rintro a ⟨x, hx, hx0⟩
    have hpos : 0 < sumSq a := by
      rcases lt_or_eq_of_le (sumSq_nonneg a) with h | h
      · exact h
      · exact absurd (sumSq_eq_zero a h.symm x hx) hx0
    have hna : norm a * norm a = ((sumSq a : ℚ) : ℝ) := by
      unfold norm
      exact Real.mul_self_sqrt (by exact_mod_cast le_of_lt hpos)
    unfold cosine_similarity
    rw [hna, dot_self]
    have hne : ((sumSq a : ℚ) : ℝ) ≠ 0 := by
      exact_mod_cast ne_of_gt hpos
    rw [if_neg hne, div_self hne]

/-- C9 witness: `claim_C9` at the concrete non-zero vector `[1]` and a
concrete pair of vectors. -/
theorem claim_C9_witness :
    cosine_similarity [(1 : ℚ)] [(1 : ℚ)] = NpFloat.val 1
    ∧ cosine_similarity [(1 : ℚ), 2] [(3 : ℚ)] = cosine_similarity [(3 : ℚ)] [(1 : ℚ), 2] := by
  exact ⟨claim_C9.2 [1] ⟨1, by decide, by decide⟩, claim_C9.1 _ _⟩

/-- C7 counterexample: on a zero-norm vector the similarity computation
does *not* fail — `_cosine_similarity` returns the NaN value (numpy's
`0.0 / 0.0` raises no exception, only a `RuntimeWarning`), and a
`find_similar` query over an item with a zero vector succeeds with that
item silently excluded, rather than raising any `DegenerateVector`
condition. -/
theorem claim_C7_counterexample :
    cosine_similarity [(0 : ℚ)] [(0 : ℚ)] = NpFloat.nan
    ∧ find_similar (fun _ => .ok [[(1 : ℚ)]])
        [{ name := "z", type := "function", file_path := "f.py", content := "",
           embedding := some [(0 : ℚ)] }] "q" 5 0 = .ok [] := by
  have hz : norm [(0 : ℚ)] = 0 := by
    have h1 : sumSq [(0 : ℚ)] = 0 := by norm_num [sumSq]
    unfold norm
    rw [h1]
    simp
  constructor
  · unfold cosine_similarity
    rw [if_pos (by rw [hz, mul_zero])]
  · have hnan2 : cosine_similarity [(1 : ℚ)] [(0 : ℚ)] = NpFloat.nan := by
      unfold cosine_similarity
      rw [if_pos (by rw [hz, mul_zero])]
    show Except.ok ((sortDesc (scoreItems [(1 : ℚ)] 0
      [{ name := "z", type := "function", file_path := "f.py", content := "",
         embedding := some [(0 : ℚ)] }])).take 5) = .ok []
    rw [show scoreItems [(1 : ℚ)] 0
        [{ name := "z", type := "function", file_path := "f.py", content := "",
           embedding := some [(0 : ℚ)] }] = [] from by
      simp only [scoreItems, hnan2]]
    rfl

/-- C7 (amended): when either vector has zero norm the similarity
computation returns the non-comparable NaN value instead of failing, and
inside `find_similar` a NaN comparison is excluded from the results while
the scan continues with the remaining items — the query is not
aborted. -/
theorem claim_C7 :
    (∀ a b : List ℚ, norm a * norm b = 0 → cosine_similarity a b = NpFloat.nan)
    ∧ (∀ (qe : List ℚ) (threshold : ℝ) (it : CodeItem) (rest : List CodeItem)
        (emb : List ℚ), it.embedding = some emb →
        cosine_similarity qe emb = NpFloat.nan →
        scoreItems qe threshold (it :: rest) = scoreItems qe threshold rest) := by
  constructor
  · intro a b h
    unfold cosine_similarity
    rw [if_pos h]
  · intro qe th it rest emb hemb hnan
    simp only [scoreItems, hemb, hnan]

/-- C7 witness: `claim_C7` applied with the concrete zero-norm vector
`[0]` against `[1]`, and to a concrete degenerate item heading a scan. -/
theorem claim_C7_witness :
    cosine_similarity [(1 : ℚ)] [(0 : ℚ)] = NpFloat.nan
    ∧ scoreItems [(1 : ℚ)] 0
        [{ name := "z", type := "function", file_path := "f.py", content := "",
           embedding := some [(0 : ℚ)] }]
      = scoreItems [(1 : ℚ)] 0 [] := by
  have hz : norm [(1 : ℚ)] * norm [(0 : ℚ)] = 0 := by
    have h1 : sumSq [(0 : ℚ)] = 0 := by norm_num [sumSq]
    unfold norm
    rw [h1]
    simp
  refine ⟨claim_C7.1 [1] [0] hz, ?_⟩
  exact claim_C7.2 [1] 0
    { name := "z", type := "function", file_path := "f.py", content := "",
      embedding := some [(0 : ℚ)] } [] [0] rfl (claim_C7.1 [1] [0] hz)

/-! ## The descending stable sort of `find_similar` -/

/-- Non-increasing scores. -/
def SortedDesc (l : List (CodeItem × ℝ)) : Prop :=
  List.Pairwise (fun p q => q.2 ≤ p.2) l

theorem mem_insertDesc (p q : CodeItem × ℝ) (l : List (CodeItem × ℝ)) :
    q ∈ insertDesc p l ↔ q = p ∨ q ∈ l := by
  induction l with
  | nil => simp [insertDesc]
  | cons r rest ih =>
      unfold insertDesc
      by_cases h : r.2 < p.2
      · rw [if_pos h]
        simp [List.mem_cons]
      · rw [if_neg h]
        simp [List.mem_cons, ih, or_left_comm]

theorem sortedDesc_insertDesc (p : CodeItem × ℝ) (l : List (CodeItem × ℝ))
    (h : SortedDesc l) : SortedDesc (insertDesc p l) := by
  induction l with
  | nil => simp [insertDesc, SortedDesc]
  | cons r rest ih =>
      rw [SortedDesc, List.pairwise_cons] at h
      unfold insertDesc
      by_cases hc : r.2 < p.2
      · rw [if_pos hc]
        rw [SortedDesc, List.pairwise_cons]
        refine ⟨?_, List.pairwise_cons.mpr h⟩
        intro q hq
        rcases List.mem_cons.mp hq with rfl | hq
        · exact le_of_lt hc
        · exact le_trans (h.1 q hq) (le_of_lt hc)
      · rw [if_neg hc]
        rw [SortedDesc, List.pairwise_cons]
        refine ⟨?_, ih h.2⟩
        intro q hq
        rcases (mem_insertDesc p q rest).mp hq with rfl | hq
        · exact not_lt.mp hc
        · exact h.1 q hq

theorem sortedDesc_foldl (l acc : List (CodeItem × ℝ)) (hacc : SortedDesc acc) :
    SortedDesc (l.foldl (fun a p => insertDesc p a) acc) := by
  induction l generalizing acc with
  | nil => exact hacc
  | cons p rest ih =>
      rw [List.foldl_cons]
      exact ih _ (sortedDesc_insertDesc p acc hacc)

theorem sortedDesc_sortDesc (l : List (CodeItem × ℝ)) : SortedDesc (sortDesc l) :=
  sortedDesc_foldl l [] (List.Pairwise.nil)

theorem mem_foldl_insertDesc (l acc : List (CodeItem × ℝ)) (q : CodeItem × ℝ) :
    q ∈ l.foldl (fun a p => insertDesc p a) acc ↔ q ∈ acc ∨ q ∈ l := by
  induction l generalizing acc with
  | nil => simp
  | cons p rest ih =>
      rw [List.foldl_cons, ih, mem_insertDesc]
      simp [List.mem_cons]
      tauto

theorem mem_sortDesc (l : List (CodeItem × ℝ)) (q : CodeItem × ℝ) :
    q ∈ sortDesc l ↔ q ∈ l := by
  unfold sortDesc
  rw [mem_foldl_insertDesc]
  simp

/-- Stability of the insertion step: inserting `p` into a descending
sorted accumulator appends it after all earlier elements of equal
score. -/
theorem filter_insertDesc (sc : ℝ) (p : CodeItem × ℝ) (acc : List (CodeItem × ℝ))
    (hacc : SortedDesc acc) :
    (insertDesc p acc).filter (fun q => decide (q.2 = sc))
      = (if p.2 = sc then acc.filter (fun q => decide (q.2 = sc)) ++ [p]
         else acc.filter (fun q => decide (q.2 = sc))) := by
  induction acc with
  | nil =>
      unfold insertDesc
      by_cases hp : p.2 = sc
      · rw [if_pos hp]
        simp [hp]
      · rw [if_neg hp]
        simp [hp]
  | cons r rest ih =>
      rw [SortedDesc, List.pairwise_cons] at hacc
      unfold insertDesc
      by_cases hc : r.2 < p.2
      · rw [if_pos hc]
        by_cases hp : p.2 = sc
        · rw [if_pos hp]
          have hnone : (r :: rest).filter (fun q => decide (q.2 = sc)) = [] := by
            rw [List.filter_eq_nil_iff]
            intro q hq
            rcases List.mem_cons.mp hq with rfl | hq
            · simp only [decide_eq_true_eq]
              exact ne_of_lt (hp ▸ hc)
            · simp only [decide_eq_true_eq]
              exact ne_of_lt (lt_of_le_of_lt (hacc.1 q hq) (hp ▸ hc))
          rw [List.filter_cons_of_pos (by simp [hp]), hnone]
          simp
        · rw [if_neg hp, List.filter_cons_of_neg (by simp [hp])]
      · rw [if_neg hc]
        have ih' := ih hacc.2
        by_cases hr : r.2 = sc
        · rw [List.filter_cons_of_pos (by simp [hr]), ih',
            List.filter_cons_of_pos (by simp [hr])]
          by_cases hp : p.2 = sc
          · rw [if_pos hp, if_pos hp]
            simp
          · rw [if_neg hp, if_neg hp]
        · rw [List.filter_cons_of_neg (by simp [hr]), ih',
            List.filter_cons_of_neg (by simp [hr])]

theorem filter_foldl_insertDesc (sc : ℝ) (l acc : List (CodeItem × ℝ))
    (hacc : SortedDesc acc) :
    (l.foldl (fun a p => insertDesc p a) acc).filter (fun q => decide (q.2 = sc))
      = acc.filter (fun q => decide (q.2 = sc)) ++ l.filter (fun q => decide (q.2 = sc)) := by
  induction l generalizing acc with
  | nil => simp
  | cons p rest ih =>
      rw [List.foldl_cons, ih _ (sortedDesc_insertDesc p acc hacc),
        filter_insertDesc sc p acc hacc]
      by_cases hp : p.2 = sc
      · rw [if_pos hp, List.filter_cons_of_pos (by simp [hp])]
        simp
      · rw [if_neg hp, List.filter_cons_of_neg (by simp [hp])]

/-- Stability of `sortDesc`: elements of any fixed score appear in the
output exactly as they appeared in the input. -/
theorem filter_sortDesc (sc : ℝ) (l : List (CodeItem × ℝ)) :
    (sortDesc l).filter (fun q => decide (q.2 = sc))
      = l.filter (fun q => decide (q.2 = sc)) := by
  unfold sortDesc
  rw [filter_foldl_insertDesc sc l [] (List.Pairwise.nil)]
  rfl

/-! ## Properties of the scoring loop -/

theorem scoreItems_mem (qe : List ℚ) (th : ℝ) (items : List CodeItem) (p : CodeItem × ℝ)
    (hp : p ∈ scoreItems qe th items) : th ≤ p.2 ∧ p.1.embedding.isSome = true := by
  induction items with
  | nil => exact absurd hp (List.not_mem_nil p)
  | cons it rest ih =>
      cases hemb : it.embedding with
      | none => simp only [scoreItems, hemb] at hp; exact ih hp
      | some emb =>
          simp only [scoreItems, hemb] at hp
          cases hcs : cosine_similarity qe emb with
          | nan => simp only [hcs] at hp; exact ih hp
          | val x =>
              simp only [hcs] at hp
              by_cases hth : th ≤ x
              · rw [if_pos hth] at hp
                rcases List.mem_cons.mp hp with rfl | hp
                · exact ⟨hth, by rw [hemb]; rfl⟩
                · exact ih hp
              · rw [if_neg hth] at hp
                exact ih hp

/-- Items without a vector are silently skipped: scoring the filtered
list is the same as scoring the full list. -/
theorem scoreItems_filter_isSome (qe : List ℚ) (th : ℝ) (items : List CodeItem) :
    scoreItems qe th (items.filter (fun it => it.embedding.isSome))
      = scoreItems qe th items := by
  induction items with
  | nil => rfl
  | cons it rest ih =>
      cases hemb : it.embedding with
      | none =>
          rw [List.filter_cons_of_neg (by simp [hemb])]
          rw [ih]
          simp only [scoreItems, hemb]
      | some emb =>
          rw [List.filter_cons_of_pos (by simp [hemb])]
          simp only [scoreItems, hemb, ih]

/-- C4: whenever `find_similar` succeeds, it returns at most `limit`
pairs, sorted non-increasing by score, all with score at least the
threshold and all for items that had a vector; items without a vector
are silently excluded (running on the vectorless-filtered collection
yields the very same result); and ties are broken by stable input order
(for every score, the returned pairs of that score form a prefix of the
in-scan-order scored pairs of that score). -/
theorem claim_C4 (provider : List String → Except String (List (List ℚ)))
    (items : List CodeItem) (query : String) (limit : Nat) (threshold : ℝ) :
    (∀ res, find_similar provider items query limit threshold = .ok res →
        res.length ≤ limit
        ∧ SortedDesc res
        ∧ (∀ p ∈ res, threshold ≤ p.2 ∧ p.1.embedding.isSome = true))
    ∧ find_similar provider items query limit threshold
        = find_similar provider (items.filter (fun it => it.embedding.isSome))
            query limit threshold
    ∧ (∀ qe rest2, provider [query] = .ok (qe :: rest2) →
        ∀ res, find_similar provider items query limit threshold = .ok res →
          ∀ sc : ℝ, ∃ t1, res.filter (fun q => decide (q.2 = sc)) ++ t1
            = (scoreItems qe threshold items).filter (fun q => decide (q.2 = sc))) := by
  refine ⟨?_, ?_, ?_⟩
  · intro res hres
    unfold find_similar at hres
    cases hq : provider [query] with
    | error e => rw [hq] at hres; exact absurd hres (by simp)
    | ok vs =>
        rw [hq] at hres
        cases vs with
        | nil => exact absurd hres (by simp)
        | cons qe r2 =>
            simp only [Except.ok.injEq] at hres
            subst hres
            refine ⟨?_, ?_, ?_⟩
            · rw [List.length_take]
              exact min_le_left _ _
            · exact List.Pairwise.sublist (List.take_sublist _ _)
                (sortedDesc_sortDesc (scoreItems qe threshold items))
            · intro p hp
              exact scoreItems_mem qe threshold items p
                ((mem_sortDesc _ p).mp (List.take_subset _ _ hp))
  · unfold find_similar
    cases hq : provider [query] with
    | error e => rfl
    | ok vs =>
        cases vs with
        | nil => rfl
        | cons qe r2 =>
            show Except.ok ((sortDesc (scoreItems qe threshold items)).take limit)
              = Except.ok ((sortDesc (scoreItems qe threshold
                  (items.filter (fun it => it.embedding.isSome)))).take limit)
            rw [scoreItems_filter_isSome]
  · intro qe rest2 hq res hres
    unfold find_similar at hres
    rw [hq] at hres
    simp only [Except.ok.injEq] at hres
    subst hres
    intro sc
    refine ⟨((sortDesc (scoreItems qe threshold items)).drop limit).filter
      (fun q => decide (q.2 = sc)), ?_⟩
    rw [← List.filter_append, List.take_append_drop,
      filter_sortDesc sc (scoreItems qe threshold items)]

/-- C4 witness: `claim_C4` applied to an empty index with a concrete
provider; the query succeeds with the empty result, which satisfies all
bounds, and its score-classes are prefixes of the scored scan. -/
theorem claim_C4_witness :
    (([] : List (CodeItem × ℝ)).length ≤ 1
      ∧ SortedDesc ([] : List (CodeItem × ℝ))
      ∧ (∀ p ∈ ([] : List (CodeItem × ℝ)), (0 : ℝ) ≤ p.2 ∧ p.1.embedding.isSome = true))
    ∧ (∃ t1, ([] : List (CodeItem × ℝ)).filter (fun q => decide (q.2 = (1 : ℝ))) ++ t1
        = (scoreItems [(1 : ℚ)] 0 []).filter (fun q => decide (q.2 = (1 : ℝ)))) := by
  constructor
  · exact (claim_C4 (fun _ => .ok [[(1 : ℚ)]]) [] "q" 1 0).1 [] rfl
  · exact (claim_C4 (fun _ => .ok [[(1 : ℚ)]]) [] "q" 1 0).2.2 [(1 : ℚ)] [] rfl [] rfl 1

/-- C8 counterexample: the `_get_name` fallback `str(node)` renders the
runtime object's memory address (`<ast.Kind object at 0x...>` on every
Python version the code can run on), so resolving the *same* source
expression in two runs — where the `ast` node object lands at different
addresses — yields different strings: the fallback is not stable across
runs.  (It is non-empty, as the second conjunct shows.) -/
theorem claim_C8_counterexample :
    get_name (Expr.other "BinOp" 140100 []) ≠ get_name (Expr.other "BinOp" 140200 [])
    ∧ get_name (Expr.other "BinOp" 140100 []) ≠ "" := by
  constructor
  · intro h
    have h' : ("<ast." ++ "BinOp" ++ " object at 0x" ++ "140100" ++ ">" : String)
        = "<ast." ++ "BinOp" ++ " object at 0x" ++ "140200" ++ ">" := h
    simp at h'
  · intro h
    have h' : ("<ast." ++ "BinOp" ++ " object at 0x" ++ "140100" ++ ">" : String) = "" := h
    simp at h'

/-- C8 (amended): for expressions outside the handled variants the
fallback string is always non-empty, and it is deterministic for a fixed
runtime node (it depends only on the node's type name and address — in
particular the walked sub-expressions are irrelevant); but it embeds the
object address and is therefore only stable within one process run, not
across runs. -/
theorem claim_C8 :
    (∀ (kind : String) (addr : Nat) (children : List Expr),
      get_name (Expr.other kind addr children) ≠ "")
    ∧ (∀ (kind : String) (addr : Nat) (children children' : List Expr),
      get_name (Expr.other kind addr children) = get_name (Expr.other kind addr children')) := by
  constructor
  · intro kind addr children h
    have h' : ("<ast." ++ kind ++ " object at 0x" ++ toString addr ++ ">" : String) = "" := h
    have hlen := congrArg String.length h'
    rw [String.length_append, String.length_append, String.length_append,
      String.length_append] at hlen
    have h5 : ("<ast." : String).length = 5 := rfl
    have h1 : (">" : String).length = 1 := rfl
    rw [h5, h1] at hlen
    have h0 : ("" : String).length = 0 := rfl
    rw [h0] at hlen
    omega
  · intro kind addr children children'
    rfl

/-- C8 witness: `claim_C8` applied to a concrete unhandled node. -/
theorem claim_C8_witness :
    get_name (Expr.other "BinOp" 7 []) ≠ ""
    ∧ get_name (Expr.other "BinOp" 7 [Expr.name "x"])
      = get_name (Expr.other "BinOp" 7 []) := by
  exact ⟨claim_C8.1 "BinOp" 7 [], claim_C8.2 "BinOp" 7 [Expr.name "x"] []⟩

end GitAnalyzer
